import Mathlib

/-!
Verification of the Codebase-Indexer repository (TypeScript) against its
natural-language specification.  The definitions below are a shallow
embedding of the repository's source files:

* `src/parser/code-parser.ts`   — `CodeParser` (block ids, block creation,
  tree-sitter chunking);
* `src/embedders/openai.ts`     — `OpenAiEmbedder.createEmbeddings`
  (token-bounded batching with per-item drop);
* `src/scanner/directory-scanner.ts` — `DirectoryScanner.scanDirectory` /
  `processFile`;
* `src/watcher/file-watcher.ts` — `FileWatcher.debounceCallback`;
* `src/vector-store/qdrant.ts`  — `QdrantVectorStore` operations;
* `src/manager/codebase-indexer.ts` — `CodebaseIndexer` state machine,
  `indexDirectory`, `search`, `clearIndex`, `handleFileChange`,
  `processBatch`.

Machine numbers are modelled as `Nat` with explicit `% 2 ^ 32` where the
source (Node's crypto SHA-256) wraps.  Asynchronous methods are modelled as
pure state transformers; a method that can throw returns `Except String`.
External collaborators (tree-sitter captures, the OpenAI embedding endpoint,
the Qdrant server) enter as explicit parameters: the capture list, an
abstract embedding function `f : String → V`, and success flags for the
network calls whose failure the source explicitly handles.
-/

namespace CodebaseIndexer

/-! ## SHA-256 (`crypto.createHash("sha256")` as used by `generateBlockId`)

The parser derives block ids from Node's SHA-256.  We embed FIPS 180-4
SHA-256 over `Nat`, wrapping at `2 ^ 32`.  The round constants and initial
hash values are not transcribed but derived from their definition (the
fractional parts of the cube roots, resp. square roots, of the first 64
primes), so they are correct by construction. -/

/-- 2 ^ 32, the word modulus of SHA-256. -/
def pow32 : Nat := 4294967296

/-- Integer cube root by binary search: the largest `k` with `k ^ 3 ≤ n`
(fuel-driven; 200 halvings cover every `n < 2 ^ 200`). -/
def cbrtGo (n : Nat) : Nat → Nat → Nat → Nat
  | 0, lo, _ => lo
  | fuel + 1, lo, hi =>
    if hi ≤ lo + 1 then lo
    else
      let m := (lo + hi) / 2
      if m * m * m ≤ n then cbrtGo n fuel m hi else cbrtGo n fuel lo m

/-- Integer cube root: the largest `k` with `k ^ 3 ≤ n`. -/
def cbrt (n : Nat) : Nat := cbrtGo n 200 0 (n + 1)

/-- The first 64 primes, whose roots generate the SHA-256 constants. -/
def primes64 : List Nat :=
  [2, 3, 5, 7, 11, 13, 17, 19, 23, 29, 31, 37, 41, 43, 47, 53,
   59, 61, 67, 71, 73, 79, 83, 89, 97, 101, 103, 107, 109, 113, 127, 131,
   137, 139, 149, 151, 157, 163, 167, 173, 179, 181, 191, 193, 197, 199, 211, 223,
   227, 229, 233, 239, 241, 251, 257, 263, 269, 271, 277, 281, 283, 293, 307, 311]

/-- Integer square root by binary search (same fuel-driven scheme as `cbrt`,
so the kernel can evaluate it). -/
def sqrtGo (n : Nat) : Nat → Nat → Nat → Nat
  | 0, lo, _ => lo
  | fuel + 1, lo, hi =>
    if hi ≤ lo + 1 then lo
    else
      let m := (lo + hi) / 2
      if m * m ≤ n then sqrtGo n fuel m hi else sqrtGo n fuel lo m

/-- Integer square root: the largest `k` with `k ^ 2 ≤ n`. -/
def sqrtNat (n : Nat) : Nat := sqrtGo n 200 0 (n + 1)

/-- First 32 bits of the fractional part of `√p`. -/
def fracSqrt (p : Nat) : Nat := sqrtNat (p * 2 ^ 64) % pow32

/-- First 32 bits of the fractional part of `∛p`. -/
def fracCbrt (p : Nat) : Nat := cbrt (p * 2 ^ 96) % pow32

/-- The 64 SHA-256 round constants `K₀…K₆₃`. -/
def shaK : List Nat := primes64.map fracCbrt

/-- The eight SHA-256 initial hash values `H₀…H₇`. -/
def shaH0 : List Nat := (primes64.take 8).map fracSqrt

/-- Right rotation of a 32-bit word. -/
def rotr32 (x n : Nat) : Nat := ((x >>> n) ||| (x <<< (32 - n))) % pow32

/-- Bitwise complement of a 32-bit word. -/
def not32 (x : Nat) : Nat := x ^^^ (pow32 - 1)

/-- Addition modulo `2 ^ 32`. -/
def add32 (a b : Nat) : Nat := (a + b) % pow32

/-- `Ch(x,y,z)`. -/
def shaCh (x y z : Nat) : Nat := (x &&& y) ^^^ (not32 x &&& z)

/-- `Maj(x,y,z)`. -/
def shaMaj (x y z : Nat) : Nat := (x &&& y) ^^^ (x &&& z) ^^^ (y &&& z)

/-- `Σ₀(x)`. -/
def bsig0 (x : Nat) : Nat := rotr32 x 2 ^^^ rotr32 x 13 ^^^ rotr32 x 22

/-- `Σ₁(x)`. -/
def bsig1 (x : Nat) : Nat := rotr32 x 6 ^^^ rotr32 x 11 ^^^ rotr32 x 25

/-- `σ₀(x)`. -/
def ssig0 (x : Nat) : Nat := rotr32 x 7 ^^^ rotr32 x 18 ^^^ (x >>> 3)

/-- `σ₁(x)`. -/
def ssig1 (x : Nat) : Nat := rotr32 x 17 ^^^ rotr32 x 19 ^^^ (x >>> 10)

/-- Big-endian 8-byte serialization of a 64-bit value. -/
def u64be (n : Nat) : List Nat :=
  [(n >>> 56) &&& 255, (n >>> 48) &&& 255, (n >>> 40) &&& 255, (n >>> 32) &&& 255,
   (n >>> 24) &&& 255, (n >>> 16) &&& 255, (n >>> 8) &&& 255, n &&& 255]

/-- SHA-256 padding (FIPS 180-4 §5.1.1): `0x80`, zeros to 56 mod 64, then the
64-bit big-endian bit length. -/
def shaPad (msg : List Nat) : List Nat :=
  let len := msg.length
  let zeros := (56 + 64 - (len + 1) % 64) % 64
  msg ++ [128] ++ List.replicate zeros 0 ++ u64be (len * 8)

/-- Group bytes into big-endian 32-bit words. -/
def bytesToWords : List Nat → List Nat
  | b0 :: b1 :: b2 :: b3 :: rest =>
    ((b0 <<< 24) ||| (b1 <<< 16) ||| (b2 <<< 8) ||| b3) :: bytesToWords rest
  | _ => []

/-- Split a word list into 16-word blocks (structural recursion so that the
kernel can evaluate digests; padded input is always a multiple of 16 words,
so the final catch-all is never hit on real input). -/
def wordsToBlocks : List Nat → List (List Nat)
  | [] => []
  | w0 :: w1 :: w2 :: w3 :: w4 :: w5 :: w6 :: w7 ::
    w8 :: w9 :: w10 :: w11 :: w12 :: w13 :: w14 :: w15 :: rest =>
    [w0, w1, w2, w3, w4, w5, w6, w7, w8, w9, w10, w11, w12, w13, w14, w15]
      :: wordsToBlocks rest
  | ws => [ws]

/-- Extend the message schedule: `acc` holds the words produced so far, most
recent first; each step prepends `σ₁(W₋₂) + W₋₇ + σ₀(W₋₁₅) + W₋₁₆`. -/
def schedExtend : List Nat → Nat → List Nat
  | acc, 0 => acc
  | acc, n + 1 =>
    schedExtend
      (add32 (add32 (ssig1 (acc.getD 1 0)) (acc.getD 6 0))
        (add32 (ssig0 (acc.getD 14 0)) (acc.getD 15 0)) :: acc) n

/-- The 64-word message schedule of one 16-word block. -/
def schedule (block : List Nat) : List Nat :=
  (schedExtend block.reverse 48).reverse

/-- The eight 32-bit working variables of the compression function. -/
structure ShaState where
  a : Nat
  b : Nat
  c : Nat
  d : Nat
  e : Nat
  f : Nat
  g : Nat
  h : Nat
deriving DecidableEq

/-- One compression round with round constant `k` and schedule word `w`. -/
def shaRound (s : ShaState) (kw : Nat × Nat) : ShaState :=
  let t1 := add32 (add32 (add32 s.h (bsig1 s.e)) (add32 (shaCh s.e s.f s.g) kw.1)) kw.2
  let t2 := add32 (bsig0 s.a) (shaMaj s.a s.b s.c)
  { a := add32 t1 t2, b := s.a, c := s.b, d := s.c,
    e := add32 s.d t1, f := s.e, g := s.f, h := s.g }

/-- Compress one 16-word block into the running 8-word state. -/
def compress (st : List Nat) (block : List Nat) : List Nat :=
  let s0 : ShaState :=
    { a := st.getD 0 0, b := st.getD 1 0, c := st.getD 2 0, d := st.getD 3 0,
      e := st.getD 4 0, f := st.getD 5 0, g := st.getD 6 0, h := st.getD 7 0 }
  let s := (shaK.zip (schedule block)).foldl shaRound s0
  [add32 (st.getD 0 0) s.a, add32 (st.getD 1 0) s.b, add32 (st.getD 2 0) s.c,
   add32 (st.getD 3 0) s.d, add32 (st.getD 4 0) s.e, add32 (st.getD 5 0) s.f,
   add32 (st.getD 6 0) s.g, add32 (st.getD 7 0) s.h]

/-- SHA-256 digest of a byte list, as eight 32-bit words. -/
def sha256Words (msg : List Nat) : List Nat :=
  ((wordsToBlocks (bytesToWords (shaPad msg)))).foldl compress shaH0

/-- A 32-bit word as 8 lowercase hex characters. -/
def wordToHex (n : Nat) : List Char :=
  let ds := Nat.toDigits 16 n
  List.replicate (8 - ds.length) '0' ++ ds

/-- Lowercase hex digest of a byte list (`digest("hex")`). -/
def sha256Hex (msg : List Nat) : String :=
  String.mk ((sha256Words msg).flatMap wordToHex)

/-- UTF-8 encoding of one character (Node strings are hashed as UTF-8). -/
def utf8EncodeChar (c : Char) : List Nat :=
  let n := c.toNat
  if n < 128 then [n]
  else if n < 2048 then [192 ||| (n >>> 6), 128 ||| (n &&& 63)]
  else if n < 65536 then
    [224 ||| (n >>> 12), 128 ||| ((n >>> 6) &&& 63), 128 ||| (n &&& 63)]
  else
    [240 ||| (n >>> 18), 128 ||| ((n >>> 12) &&& 63),
     128 ||| ((n >>> 6) &&& 63), 128 ||| (n &&& 63)]

/-- The UTF-8 bytes of a string. -/
def strBytes (s : String) : List Nat := s.data.flatMap utf8EncodeChar

set_option maxRecDepth 100000 in
example : sha256Hex (strBytes "abc") =
    "ba7816bf8f01cfea414140de5dae2223b00361a396177a9cb410ff61f20015ad" := by
  decide

/-! ## Data model (`src/types/index.ts`, `src/constants/index.ts`) -/

/-- `CodeBlock.type`: the TS string union
`'function' | 'class' | 'interface' | 'variable' | 'comment' | 'other'`
(`classDecl`/`interfaceDecl`/`variableDecl` stand for the keyword strings). -/
inductive BlockType where
  | function
  | classDecl
  | interfaceDecl
  | variableDecl
  | comment
  | other
deriving DecidableEq, Repr

/-- A tree-sitter position `{row, column}`. -/
structure AstPosition where
  row : Nat
  column : Nat
deriving DecidableEq, Repr

/-- The AST-span metadata recorded for tree-sitter blocks. -/
structure AstNodeInfo where
  type : String
  startPosition : AstPosition
  endPosition : AstPosition
deriving DecidableEq, Repr

/-- `CodeBlock.metadata` as populated by `createCodeBlock` and
`parseWithTreeSitter`. -/
structure BlockMetadata where
  fileExtension : String
  lineCount : Nat
  charCount : Nat
  parsingMethod : String
  astNode : Option AstNodeInfo := none
  captureType : Option String := none
deriving DecidableEq, Repr

/-- `CodeBlock` from `src/types/index.ts`. -/
structure CodeBlock where
  id : String
  filePath : String
  content : String
  language : String
  startLine : Nat
  endLine : Nat
  type : BlockType
  name : Option String := none
  metadata : Option BlockMetadata := none
deriving DecidableEq, Repr

/-- `MIN_BLOCK_CHARS` from `src/constants/index.ts`. -/
def MIN_BLOCK_CHARS : Nat := 50

/-- `MAX_BLOCK_CHARS` from `src/constants/index.ts`. -/
def MAX_BLOCK_CHARS : Nat := 1000

/-- `MAX_ITEM_TOKENS` from `src/constants/index.ts`. -/
def MAX_ITEM_TOKENS : Nat := 8191

/-- `MAX_BATCH_TOKENS` from `src/constants/index.ts`. -/
def MAX_BATCH_TOKENS : Nat := 100000

/-- `BATCH_SEGMENT_THRESHOLD` from `src/constants/index.ts`. -/
def BATCH_SEGMENT_THRESHOLD : Nat := 60

/-- `MAX_FILE_SIZE_BYTES` from `src/constants/index.ts`. -/
def MAX_FILE_SIZE_BYTES : Nat := 1048576

/-! ## String helpers mirroring the JS string operations used by the parser -/

/-- JS `\s` over the ASCII range (space, tab, line feed, carriage return,
vertical tab, form feed; the Unicode spaces JS also strips play no role for
the inputs considered). -/
def jsIsWhitespace (c : Char) : Bool :=
  c = ' ' || c = '\t' || c = '\n' || c = '\r' || c = '\x0b' || c = '\x0c'

/-- JS `String.prototype.trim` on the character list. -/
def trimList (l : List Char) : List Char :=
  ((l.dropWhile jsIsWhitespace).reverse.dropWhile jsIsWhitespace).reverse

/-- JS `s.trim()`. -/
def jsTrim (s : String) : String := String.mk (trimList s.data)

/-- JS `String.prototype.toLowerCase` on one character (ASCII range). -/
def jsLowerChar : Char → Char
  | 'A' => 'a' | 'B' => 'b' | 'C' => 'c' | 'D' => 'd' | 'E' => 'e' | 'F' => 'f'
  | 'G' => 'g' | 'H' => 'h' | 'I' => 'i' | 'J' => 'j' | 'K' => 'k' | 'L' => 'l'
  | 'M' => 'm' | 'N' => 'n' | 'O' => 'o' | 'P' => 'p' | 'Q' => 'q' | 'R' => 'r'
  | 'S' => 's' | 'T' => 't' | 'U' => 'u' | 'V' => 'v' | 'W' => 'w' | 'X' => 'x'
  | 'Y' => 'y' | 'Z' => 'z'
  | c => c

/-- JS `s.toLowerCase()`. -/
def jsToLower (s : String) : String := String.mk (s.data.map jsLowerChar)

/-- JS `s.startsWith(pre)`. -/
def jsStartsWith (s pre : String) : Bool := List.isPrefixOf pre.data s.data

/-- JS `s.split('\n')` on the character list. -/
def splitLinesList : List Char → List (List Char)
  | [] => [[]]
  | c :: rest =>
    if c = '\n' then [] :: splitLinesList rest
    else
      match splitLinesList rest with
      | [] => [[c]]
      | l :: ls => (c :: l) :: ls

/-- JS `s.split('\n')`. -/
def jsSplitLines (s : String) : List String := (splitLinesList s.data).map String.mk

/-- `pat` occurs as a contiguous sublist (JS `String.prototype.includes`). -/
def subList (pat : List Char) : List Char → Bool
  | [] => pat.isEmpty
  | c :: rest => List.isPrefixOf pat (c :: rest) || subList pat rest

/-- JS `hay.includes(pat)`. -/
def containsSub (hay pat : String) : Bool := subList pat.data hay.data

/-- A JS `\w` character: `[A-Za-z0-9_]`. -/
def isWordChar (c : Char) : Bool := c.isAlphanum || c = '_'

/-- After optional whitespace, an opening parenthesis (the `\s*\(` tail of the
regex below). -/
def parenAfterWs : List Char → Bool
  | [] => false
  | c :: rest => if c = '(' then true else if c.isWhitespace then parenAfterWs rest else false

/-- JS `content.match(/\w+\s*\(/) !== null`: some `\w` character is followed,
after optional whitespace, by `(` (one `\w` suffices since `\w+` can match a
run's last character). -/
def hasWordParen : List Char → Bool
  | [] => false
  | c :: rest => (isWordChar c && parenAfterWs rest) || hasWordParen rest

/-- Node `path.extname`: the extension (with dot) of the final path segment,
empty for dotless names and for a leading-dot-only name. -/
def lastIdxOfChar (ch : Char) (cs : List Char) : Option Nat :=
  ((cs.enum.filter (fun p => p.2 = ch)).getLast?).map (fun p => p.1)

/-- Node `path.extname`. -/
def extname (p : String) : String :=
  let base := (p.splitOn "/").getLastD ""
  let cs := base.data
  match lastIdxOfChar '.' cs with
  | none => ""
  | some 0 => ""
  | some i => String.mk (cs.drop i)

/-- `EXTENSION_TO_LANGUAGE` from `src/constants/index.ts` (built there from
`SUPPORTED_EXTENSIONS`, plus the two Dockerfile entries). -/
def extToLanguage : String → Option String
  | ".js" | ".jsx" | ".mjs" => some "javascript"
  | ".ts" | ".tsx" => some "typescript"
  | ".py" | ".pyx" | ".pyi" => some "python"
  | ".java" => some "java"
  | ".cpp" | ".cc" | ".cxx" | ".c++" | ".c" | ".h" | ".hpp" => some "cpp"
  | ".go" => some "go"
  | ".rs" => some "rust"
  | ".php" => some "php"
  | ".rb" => some "ruby"
  | ".swift" => some "swift"
  | ".kt" | ".kts" => some "kotlin"
  | ".scala" => some "scala"
  | ".cs" => some "csharp"
  | ".html" | ".htm" => some "html"
  | ".css" | ".scss" | ".sass" | ".less" => some "css"
  | ".json" => some "json"
  | ".yaml" | ".yml" => some "yaml"
  | ".xml" => some "xml"
  | ".md" | ".markdown" => some "markdown"
  | ".sh" | ".bash" | ".zsh" => some "shell"
  | ".sql" => some "sql"
  | "Dockerfile" | ".dockerfile" => some "dockerfile"
  | _ => none

/-! ## `CodeParser.generateBlockId` / `createCodeBlock`
(`src/parser/code-parser.ts` lines 405–460) -/

/-- The string hashed by `generateBlockId`:
`` `${filePath}:${startLine}:${endLine}:${content}` ``. -/
def blockIdInput (filePath : String) (startLine endLine : Nat) (content : String) : String :=
  filePath ++ ":" ++ toString startLine ++ ":" ++ toString endLine ++ ":" ++ content

/-- `CodeParser.generateBlockId`: SHA-256 of the serialized fields, hex digest,
formatted 8-4-4-4-12 with dashes. -/
def generateBlockId (filePath : String) (startLine endLine : Nat) (content : String) : String :=
  let hash := (sha256Hex (strBytes (blockIdInput filePath startLine endLine content))).data
  String.intercalate "-"
    [String.mk (hash.take 8), String.mk ((hash.drop 8).take 4),
     String.mk ((hash.drop 12).take 4), String.mk ((hash.drop 16).take 4),
     String.mk ((hash.drop 20).take 12)]

/-- `CodeParser.inferBlockType`: keyword heuristics on the trimmed, lowercased
content (the `interface` branch is kept although the `class` branch shadows
it, as in the source). -/
def inferBlockType (content : String) (_lang : String) : BlockType :=
  let t := jsToLower (jsTrim content)
  if containsSub t "function " || containsSub t "def " || containsSub t "func "
      || hasWordParen t.data then .function
  else if containsSub t "class " || containsSub t "interface "
      || containsSub t "struct " then .classDecl
  else if containsSub t "interface " then .interfaceDecl
  else if containsSub t "var " || containsSub t "let " || containsSub t "const "
      || containsSub t "=" then .variableDecl
  else if jsStartsWith t "//" || jsStartsWith t "/*" || jsStartsWith t "#"
      || jsStartsWith t "\"\"\"" then .comment
  else .other

/-- `CodeParser.createCodeBlock`: the id hashes the given (untrimmed) content,
while the stored `content` field is trimmed; `name` is set only when truthy
(so a JS empty string is dropped). -/
def createCodeBlock (filePath content language : String) (startLine endLine : Nat)
    (name : Option String) : CodeBlock :=
  { id := generateBlockId filePath startLine endLine content
    filePath := filePath
    content := jsTrim content
    language := language
    startLine := startLine
    endLine := endLine
    type := inferBlockType content language
    name := Option.filter (fun n => !(n = "")) name
    metadata := some
      { fileExtension := extname filePath
        lineCount := endLine - startLine + 1
        charCount := content.length
        parsingMethod := "line-based" } }

/-! ## `CodeParser.parseWithTreeSitter` (`src/parser/code-parser.ts` 75–248)

The structural extractor is an external collaborator: the capture list that
`query.captures(tree.rootNode)` returns is a parameter.  Each capture carries
its node (with the fields the parser reads: `type`, `text`, positions,
children) and the node's `parent` as reported by the tree. -/

/-- A tree-sitter syntax node, with exactly the fields the parser reads. -/
inductive TSNode where
  | node (type : String) (text : String) (startPosition : AstPosition)
      (endPosition : AstPosition) (children : List TSNode)

/-- The `type` field of a node. -/
def TSNode.nodeType : TSNode → String
  | .node t _ _ _ _ => t

/-- The `text` field of a node. -/
def TSNode.text : TSNode → String
  | .node _ tx _ _ _ => tx

/-- The `startPosition` field of a node. -/
def TSNode.startPos : TSNode → AstPosition
  | .node _ _ sp _ _ => sp

/-- The `endPosition` field of a node. -/
def TSNode.endPos : TSNode → AstPosition
  | .node _ _ _ ep _ => ep

/-- A query capture: its name, its node, and the node's parent in the tree. -/
structure Capture where
  name : String
  node : TSNode
  parent : Option TSNode

mutual
/-- `CodeParser.findIdentifierNodes`: depth-first collection of
`identifier`/`type_identifier` nodes (the node itself first, then its
children). -/
def findIdentifierNodes : TSNode → List TSNode
  | .node ty tx sp ep children =>
    (if ty = "identifier" || ty = "type_identifier"
      then [TSNode.node ty tx sp ep children] else [])
      ++ childIdentifiers children

/-- DFS over the child list for `findIdentifierNodes`. -/
def childIdentifiers : List TSNode → List TSNode
  | [] => []
  | c :: cs => findIdentifierNodes c ++ childIdentifiers cs
end

/-- First character of a JS identifier in the name-extraction regex:
`[a-zA-Z_$]`. -/
def isIdentStart (c : Char) : Bool := c.isAlpha || c = '_' || c = '$'

/-- Subsequent character of a JS identifier: `[a-zA-Z0-9_$]`. -/
def isIdentChar (c : Char) : Bool := c.isAlphanum || c = '_' || c = '$'

/-- Match one keyword alternative of
`/(?:function|class|interface|const|let|var)\s+([a-zA-Z_$][a-zA-Z0-9_$]*)/`
at the head of `cs`, returning the captured identifier. -/
def matchOneKeyword (kw : List Char) (cs : List Char) : Option String :=
  if List.isPrefixOf kw cs then
    match cs.drop kw.length with
    | [] => none
    | c :: rest =>
      if jsIsWhitespace c then
        match (c :: rest).dropWhile jsIsWhitespace with
        | [] => none
        | d :: ds => if isIdentStart d then some (String.mk (d :: ds.takeWhile isIdentChar)) else none
      else none
  else none

/-- The keyword alternatives, in the regex's alternation order. -/
def nameKeywords : List String := ["function", "class", "interface", "const", "let", "var"]

/-- Try every keyword alternative at this position. -/
def tryKeywordsAt : List String → List Char → Option String
  | [], _ => none
  | k :: ks, cs =>
    match matchOneKeyword k.data cs with
    | some res => some res
    | none => tryKeywordsAt ks cs

/-- Leftmost match of the name-extraction regex over a line. -/
def matchKeywordName : List Char → Option String
  | [] => none
  | c :: rest =>
    match tryKeywordsAt nameKeywords (c :: rest) with
    | some n => some n
    | none => matchKeywordName rest

/-- `CodeParser.extractNameFromCapture`: name captures use the node text;
definition captures use the first identifier descendant; otherwise the regex
against the block's first line. -/
def extractNameFromCapture (cap : Capture) (content : String) : Option String :=
  if containsSub cap.name "name" then some cap.node.text
  else
    let fromIdent : Option String :=
      if containsSub cap.name "definition" then
        match findIdentifierNodes cap.node with
        | n :: _ => some n.text
        | [] => none
      else none
    match fromIdent with
    | some t => some t
    | none =>
      let firstLine := jsTrim ((jsSplitLines content).headD "")
      matchKeywordName firstLine.data

/-- `CodeParser.inferBlockTypeFromCapture`: keyword tests on the lowercased
capture name, falling back to content heuristics. -/
def inferBlockTypeFromCapture (cap : Capture) (content : String) : BlockType :=
  let cn := jsToLower cap.name
  if containsSub cn "function" then .function
  else if containsSub cn "class" then .classDecl
  else if containsSub cn "interface" then .interfaceDecl
  else if containsSub cn "variable" || containsSub cn "const" then .variableDecl
  else inferBlockType content ""

/-- The block the `captures.forEach` body emits for a surviving candidate:
`createCodeBlock` (1-based lines), then the AST-based type override and the
tree-sitter metadata. -/
def tsEmitBlock (filePath language : String) (cap : Capture) (blockContent : String)
    (startLine endLine : Nat) : CodeBlock :=
  let base := createCodeBlock filePath blockContent language
    (startLine + 1) (endLine + 1) (extractNameFromCapture cap blockContent)
  let astInfo : AstNodeInfo :=
    { type := cap.node.nodeType
      startPosition := cap.node.startPos
      endPosition := cap.node.endPos }
  { base with
    type := inferBlockTypeFromCapture cap blockContent
    metadata := some
      (match base.metadata with
       | some m =>
         { m with
           astNode := some astInfo
           captureType := some cap.name
           parsingMethod := "tree-sitter" }
       | none =>
         { fileExtension := ""
           lineCount := 0
           charCount := 0
           parsingMethod := "tree-sitter"
           astNode := some astInfo
           captureType := some cap.name }) }

/-- The `captures.forEach` body of `parseWithTreeSitter`: `processed` is the
`processedRanges` set (as the list of range keys added so far).  No sorting
happens: captures are visited in the order the query returned them. -/
def tsCaptureLoop (filePath language : String) (lines : List String) :
    List Capture → List String → List CodeBlock
  | [], _ => []
  | cap :: rest, processed =>
    if !(containsSub cap.name "definition" || containsSub cap.name "name") then
      tsCaptureLoop filePath language lines rest processed
    else
      match (if containsSub cap.name "name" then cap.parent else some cap.node) with
      | none => tsCaptureLoop filePath language lines rest processed
      | some defNode =>
        let startLine := defNode.startPos.row
        let endLine := defNode.endPos.row
        let lineCount := endLine - startLine + 1
        if lineCount < 3 then tsCaptureLoop filePath language lines rest processed
        else
          let rangeKey := toString startLine ++ "-" ++ toString endLine
          if processed.contains rangeKey then tsCaptureLoop filePath language lines rest processed
          else
            let blockLines := (lines.drop startLine).take (endLine + 1 - startLine)
            let blockContent := String.intercalate "\n" blockLines
            if (jsTrim blockContent).length < MIN_BLOCK_CHARS then
              tsCaptureLoop filePath language lines rest processed
            else
              tsEmitBlock filePath language cap blockContent startLine endLine
                :: tsCaptureLoop filePath language lines rest (rangeKey :: processed)

/-- `CodeParser.parseWithTreeSitter`, given the captures the external query
produced for this file's tree. -/
def parseWithTreeSitter (filePath content : String) (captures : List Capture) :
    List CodeBlock :=
  let ext := jsToLower (extname filePath)
  let language := (extToLanguage ext).getD "text"
  let lines := jsSplitLines content
  tsCaptureLoop filePath language lines captures []

/-! ## `OpenAiEmbedder.createEmbeddings` (`src/embedders/openai.ts` 43–91)

The provider call is abstracted as `f : String → V`: one vector per sent
text, in order (`response.data.map(item => item.embedding)`).  The batching
loop is embedded as written: scan the remaining texts from the front,
dropping items over `MAX_ITEM_TOKENS`, breaking when the batch ceiling would
be exceeded; the scanned prefix is spliced off and the batch is sent. -/

/-- `Math.ceil(text.length / 4)`, the rough token estimate (JS counts UTF-16
units; for the ASCII inputs considered here the two lengths agree). -/
def itemTokens (text : String) : Nat := (text.length + 3) / 4

/-- An item small enough not to be dropped. -/
def fitsItem (text : String) : Bool := decide (itemTokens text ≤ MAX_ITEM_TOKENS)

/-- One pass of the batch-building `for` loop: returns the batch (texts kept,
in order) and the unscanned remainder.  Oversized items are dropped; the
scan breaks when `acc + itemTokens` would exceed `MAX_BATCH_TOKENS`. -/
def buildBatch (acc : Nat) : List String → List String × List String
  | [] => ([], [])
  | t :: rest =>
    let it := itemTokens t
    if it > MAX_ITEM_TOKENS then buildBatch acc rest
    else if acc + it > MAX_BATCH_TOKENS then ([], t :: rest)
    else
      let p := buildBatch (acc + it) rest
      (t :: p.1, p.2)

/-- The `while (remainingTexts.length > 0)` loop, fuel-driven (structural so
the kernel can evaluate it); `createEmbeddings` supplies fuel
`texts.length`, which always suffices because each pass consumes at least
the first remaining text. -/
def embedGo (f : String → V) : Nat → List String → List V
  | _, [] => []
  | 0, _ :: _ => []
  | fuel + 1, t :: rest =>
    let p := buildBatch 0 (t :: rest)
    (p.1.map f) ++ embedGo f fuel p.2

/-- `OpenAiEmbedder.createEmbeddings` with a successful provider `f`
(failure of `_embedBatchWithRetries` is modelled at the call sites). -/
def createEmbeddings (f : String → V) (texts : List String) : List V :=
  embedGo f texts.length texts

/-! ## `QdrantVectorStore` (`src/vector-store/qdrant.ts`) -/

/-- `VectorPoint`: `vector` is `Option V` because `processBatch` reads
`embeddings[index]`, which is `undefined` (here `none`) past the end of the
embeddings array. -/
structure VectorPoint (V : Type) where
  id : String
  vector : Option V
  payload : CodeBlock
deriving DecidableEq

/-- The Qdrant collection as seen through the store's operations: whether it
exists, its vector dimension, and its points. -/
structure Store (V : Type) where
  colExists : Bool
  dim : Nat
  points : List (VectorPoint V)
deriving DecidableEq

/-- `QdrantVectorStore.sanitizePayload` composed with `deserializePayload`:
the stored payload keeps every `CodeBlock` field except `id` (sanitize omits
it; deserialize then yields `""`), and a falsy `name` becomes null/`none`. -/
def sanitizePayload (b : CodeBlock) : CodeBlock :=
  { b with id := "", name := Option.filter (fun n => !(n = "")) b.name }

/-- Qdrant upsert of a single point: insert-or-replace keyed by point id. -/
def upsertOne (pts : List (VectorPoint V)) (p : VectorPoint V) : List (VectorPoint V) :=
  pts.filter (fun q => !(q.id = p.id)) ++ [p]

/-- `QdrantVectorStore.upsertPoints`: no-op on an empty list, otherwise
insert-or-replace each point (payload sanitized). -/
def upsertPoints (st : Store V) (points : List (VectorPoint V)) : Store V :=
  if points.isEmpty then st
  else
    let qdrantPoints := points.map (fun p => { p with payload := sanitizePayload p.payload })
    { st with points := qdrantPoints.foldl upsertOne st.points }

/-- `QdrantVectorStore.deletePointsByFilePath`: one filtered delete. -/
def deletePointsByFilePath (st : Store V) (filePath : String) : Store V :=
  { st with points := st.points.filter (fun q => !(q.payload.filePath = filePath)) }

/-- `QdrantVectorStore.collectionExists`. -/
def collectionExists (st : Store V) : Bool := st.colExists

/-- `QdrantVectorStore.initialize`: create the collection if absent; if
present with a different (truthy) vector size, destroy and recreate it. -/
def initCollection (st : Store V) (cfgDim : Nat) : Store V :=
  if !st.colExists then { colExists := true, dim := cfgDim, points := [] }
  else if !(st.dim = 0) && !(st.dim = cfgDim) then { colExists := true, dim := cfgDim, points := [] }
  else st

/-- `QdrantVectorStore.clearCollection`: delete the collection, then
`initialize()` recreates it empty; a thrown delete/create error is logged
and rethrown (`deleteOk = false`). -/
def clearCollection (st : Store V) (cfgDim : Nat) (deleteOk : Bool) : Except String (Store V) :=
  if deleteOk then .ok (initCollection { st with colExists := false, points := [] } cfgDim)
  else .error "Error clearing collection"

/-! ## `CodebaseIndexer` (`src/manager/codebase-indexer.ts`) -/

/-- `IndexingState` from `src/types/index.ts`. -/
inductive IndexingState where
  | idle
  | indexing
  | indexed
  | error
  | watching
deriving DecidableEq, Repr

/-- The watcher's change types. -/
inductive ChangeType where
  | add
  | change
  | unlink
deriving DecidableEq, Repr

/-- `IndexingProgress.stage`. -/
inductive Stage where
  | scanning
  | parsing
  | embedding
  | storing
  | completed
deriving DecidableEq, Repr

/-- `IndexingProgress` from `src/types/index.ts`. -/
structure IndexingProgress where
  totalFiles : Nat
  processedFiles : Nat
  currentFile : String
  stage : Stage
  errors : List String
deriving DecidableEq, Repr

/-- The points `CodebaseIndexer.processBatch` builds: block `i` is paired
with `embeddings[i]` by position. -/
def mkPoints (embeddings : List V) : List CodeBlock → Nat → List (VectorPoint V)
  | [], _ => []
  | b :: bs, i => { id := b.id, vector := embeddings[i]?, payload := b } :: mkPoints embeddings bs (i + 1)

/-- The `vectorPoints` array of `CodebaseIndexer.processBatch`. -/
def processBatchPoints (f : String → V) (codeBlocks : List CodeBlock) : List (VectorPoint V) :=
  mkPoints (createEmbeddings f (codeBlocks.map (fun b => b.content))) codeBlocks 0

/-- `CodebaseIndexer.processBatch`: embed the blocks' contents, zip by index,
upsert. -/
def processBatch (f : String → V) (st : Store V) (codeBlocks : List CodeBlock) : Store V :=
  upsertPoints st (processBatchPoints f codeBlocks)

/-- `CodebaseIndexer.handleFileChange`: `unlink` deletes by path; `add` and
`change` re-parse the file (`parseRes` is the parser's outcome), and only
when the new chunking is non-empty delete then re-upsert.  `embedOk = false`
models `createEmbeddings` throwing inside `processBatch`, after the delete
already happened; the surrounding `try` swallows the error. -/
def handleFileChange (f : String → V) (st : Store V) (filePath : String)
    (changeType : ChangeType) (parseRes : Except String (List CodeBlock))
    (embedOk : Bool) : Store V :=
  match changeType with
  | .unlink => deletePointsByFilePath st filePath
  | _ =>
    match parseRes with
    | .error _ => st
    | .ok codeBlocks =>
      if codeBlocks.length > 0 then
        let st1 := deletePointsByFilePath st filePath
        if embedOk then processBatch f st1 codeBlocks else st1
      else st

/-- `CodebaseIndexer.clearIndex`: clear the backing collection, then set the
state to idle; if clearing throws, the assignment is never reached. -/
def clearIndex (state : IndexingState) (st : Store V) (cfgDim : Nat) (deleteOk : Bool) :
    Except String Unit × IndexingState × Store V :=
  match clearCollection st cfgDim deleteOk with
  | .ok st2 => (.ok (), .idle, st2)
  | .error e => (.error e, state, st)

/-- A raw result of `QdrantVectorStore.searchSimilar` (the score type `S` is
abstract — the core never computes with scores). -/
structure RawSearchResult (S : Type) where
  id : String
  score : S
  payload : CodeBlock

/-- `SearchResult` from `src/types/index.ts`. -/
structure SearchResult (S : Type) where
  codeBlock : CodeBlock
  score : S
  filePath : String
  snippet : String

/-- `CodebaseIndexer.createSnippet`. -/
def createSnippet (content : String) (includeSnippet : Bool) : String :=
  if !includeSnippet then content
  else if content.length ≤ 200 then content
  else content.take 200 ++ "..."

/-- The error `search` throws when the collection does not exist. -/
def notIndexedMsg : String := "Codebase is not indexed. Please run indexDirectory first."

/-- The error `_embedBatchWithRetries` throws once retries are exhausted. -/
def embedFailMsg (lastError : String) : String :=
  "Failed to create embeddings after 3 attempts. Last error: " ++ lastError

/-- `CodebaseIndexer.search`: consults `collectionExists()` — never the
in-memory state, which is passed only to show it is not read.  `embedErr`
is the query-embedding outcome (`some e` = the embedder threw `e`);
`simSearch` is the external store's ranked answer. -/
def search (f : String → V) (_state : IndexingState) (st : Store V)
    (simSearch : V → List (RawSearchResult S)) (query : String)
    (includeSnippet : Bool) (embedErr : Option String) :
    Except String (List (SearchResult S)) :=
  if !(collectionExists st) then .error notIndexedMsg
  else
    match embedErr with
    | some e => .error (embedFailMsg e)
    | none =>
      match createEmbeddings f [query] with
      | [] => .ok []
      | qv :: _ =>
        .ok ((simSearch qv).map (fun r =>
          { codeBlock := r.payload
            score := r.score
            filePath := r.payload.filePath
            snippet := createSnippet r.payload.content includeSnippet }))

/-- `CodebaseIndexer.createBatches` (fuel-driven structural recursion; the
fuel `items.length` suffices for every positive batch size, and the source
only calls this with `BATCH_SEGMENT_THRESHOLD = 60`). -/
def createBatchesGo : Nat → List α → Nat → List (List α)
  | _, [], _ => []
  | 0, _ :: _, _ => []
  | fuel + 1, x :: xs, n => ((x :: xs).take n) :: createBatchesGo fuel ((x :: xs).drop n) n

/-- `CodebaseIndexer.createBatches`. -/
def createBatches (items : List α) (batchSize : Nat) : List (List α) :=
  createBatchesGo items.length items batchSize

/-- The per-batch loop of `indexDirectory`: `embedOkAt i` tells whether the
embedding call of batch `i` succeeds; on failure the error aborts the run,
keeping the store mutations already made. -/
def runBatches (f : String → V) (embedOkAt : Nat → Bool) :
    Nat → Store V → List (List CodeBlock) → Except String Unit × Store V
  | _, st, [] => (.ok (), st)
  | i, st, b :: bs =>
    if embedOkAt i then runBatches f embedOkAt (i + 1) (processBatch f st b) bs
    else (.error (embedFailMsg "network"), st)

/-- `CodebaseIndexer.indexDirectory`: reentrancy guard first; then state
`indexing`, initialize the collection, scan (`scanRes` is the scanner's
outcome), return `indexed` on zero blocks, else process the 60-block
batches in order; an exception anywhere sets state `error` and propagates. -/
def indexDirectory (f : String → V) (state : IndexingState) (st : Store V)
    (cfgDim : Nat) (scanRes : Except String (List CodeBlock))
    (embedOkAt : Nat → Bool) : Except String Unit × IndexingState × Store V :=
  if state = .indexing then (.error "Indexing is already in progress", state, st)
  else
    let st1 := initCollection st cfgDim
    match scanRes with
    | .error e => (.error e, .error, st1)
    | .ok codeBlocks =>
      if codeBlocks.length = 0 then (.ok (), .indexed, st1)
      else
        match runBatches f embedOkAt 0 st1 (createBatches codeBlocks BATCH_SEGMENT_THRESHOLD) with
        | (.ok _, st2) => (.ok (), .indexed, st2)
        | (.error e, st2) => (.error e, .error, st2)

/-! ## `DirectoryScanner` (`src/scanner/directory-scanner.ts`)

A file's interaction with the filesystem and parser is summarized by a
`FileOutcome`: the `stat` result and the parser's outcome.  The semaphore
only bounds concurrency; since every per-file mutation happens on one
cooperative turn, the run is modelled as the sequential fold (interleavings
permute per-file order but none of the proved facts depend on it). -/

/-- What the filesystem and parser did for one file. -/
structure FileOutcome where
  path : String
  statRes : Except String Nat
  parseRes : Except String (List CodeBlock)

/-- `DirectoryScanner.processFile`: its own `try`/`catch` turns every stat or
parse failure into an empty block list; oversized files are skipped with a
warning.  It never throws. -/
def processFile (fo : FileOutcome) : List CodeBlock :=
  match fo.statRes with
  | .error _ => []
  | .ok size =>
    if size > MAX_FILE_SIZE_BYTES then []
    else
      match fo.parseRes with
      | .error _ => []
      | .ok blocks => blocks

/-- One per-file task of `scanDirectory`: the `try` body updates the
progress record and appends the file's blocks; the `catch` appends an error
message — but the only call that could throw is `processFile`, which
catches internally, so the scrutinee is always `Except.ok`. -/
def scanFileTask (acc : IndexingProgress × List CodeBlock) (fo : FileOutcome) :
    IndexingProgress × List CodeBlock :=
  match (Except.ok (processFile fo) : Except String (List CodeBlock)) with
  | .ok fileBlocks =>
    ({ acc.1 with
        currentFile := fo.path
        stage := .parsing
        processedFiles := acc.1.processedFiles + 1 },
      acc.2 ++ fileBlocks)
  | .error e =>
    ({ acc.1 with errors := acc.1.errors ++ ["Error processing " ++ fo.path ++ ": " ++ e] },
      acc.2)

/-- `DirectoryScanner.scanDirectory` over the filtered file list. -/
def scanDirectory (files : List FileOutcome) : IndexingProgress × List CodeBlock :=
  let progress0 : IndexingProgress :=
    { totalFiles := files.length
      processedFiles := 0
      currentFile := ""
      stage := .scanning
      errors := [] }
  let res := files.foldl scanFileTask (progress0, [])
  ({ res.1 with stage := .completed }, res.2)

/-! ## `FileWatcher` (`src/watcher/file-watcher.ts`)

Timed trace semantics of the debounce map: a pending `setTimeout` is a
`PendingTimer`; an incoming event first lets every timer whose fire time has
arrived fire, then replaces (`clearTimeout` + new `setTimeout`) its path's
timer; after the trace, all surviving timers elapse. -/

/-- A raw filesystem event at an instant. -/
structure TimedEvent where
  time : Nat
  path : String
  changeType : ChangeType
deriving DecidableEq, Repr

/-- A pending debounce timer for a path. -/
structure PendingTimer where
  path : String
  fireTime : Nat
  changeType : ChangeType
deriving DecidableEq, Repr

/-- One `onChange(path, changeType)` invocation, with its instant. -/
structure Callback where
  time : Nat
  path : String
  changeType : ChangeType
deriving DecidableEq, Repr

/-- A timer elapses: `callback(filePath, changeType)` fires. -/
def fireTimer (t : PendingTimer) : Callback :=
  { time := t.fireTime, path := t.path, changeType := t.changeType }

/-- `FileWatcher.debounceCallback` at one incoming event. -/
def debounceStep (debounceMs : Nat) (acc : List PendingTimer × List Callback)
    (e : TimedEvent) : List PendingTimer × List Callback :=
  let due := acc.1.filter (fun t => t.fireTime ≤ e.time)
  let live := acc.1.filter (fun t => !(t.fireTime ≤ e.time))
  let timers := live.filter (fun t => !(t.path = e.path))
    ++ [{ path := e.path, fireTime := e.time + debounceMs, changeType := e.changeType }]
  (timers, acc.2 ++ due.map fireTimer)

/-- The callbacks a time-ordered event trace produces once all timers have
elapsed. -/
def runWatcher (debounceMs : Nat) (events : List TimedEvent) : List Callback :=
  let res := events.foldl (debounceStep debounceMs) ([], [])
  res.2 ++ res.1.map fireTimer

/-! ## Observation helpers used by theorem statements -/

/-- The store's points whose payload carries the given file path. -/
def pointsForPath (st : Store V) (path : String) : List (VectorPoint V) :=
  st.points.filter (fun q => q.payload.filePath = path)

/-- Every event of the list follows the previous instant (starting at `t`)
within strictly less than the window `w`, in nondecreasing time order. -/
def denseFromB (w : Nat) : Nat → List TimedEvent → Bool
  | _, [] => true
  | t, e :: es => decide (t ≤ e.time) && decide (e.time < t + w) && denseFromB w e.time es

/-- The time of the last event (default `t`). -/
def lastTime : List TimedEvent → Nat → Nat
  | [], t => t
  | e :: es, _ => lastTime es e.time

/-- The change type of the last event (default `c`). -/
def lastType : List TimedEvent → ChangeType → ChangeType
  | [], c => c
  | e :: es, _ => lastType es e.changeType

/-- The 1-based line span a capture contributes as a candidate block, if it
passes the definition/name filter and parent resolution (mirrors the head of
the `tsCaptureLoop` body). -/
def candidateSpan (cap : Capture) : Option (Nat × Nat) :=
  if !(containsSub cap.name "definition" || containsSub cap.name "name") then none
  else
    match (if containsSub cap.name "name" then cap.parent else some cap.node) with
    | none => none
    | some dn => some (dn.startPos.row + 1, dn.endPos.row + 1)

/-- All candidate spans of a capture list, in capture order. -/
def candidateSpans (captures : List Capture) : List (Nat × Nat) :=
  captures.filterMap candidateSpan

/-- The `processedRanges` key a block's span corresponds to. -/
def rangeKeyOf (b : CodeBlock) : String :=
  toString (b.startLine - 1) ++ "-" ++ toString (b.endLine - 1)

/-- Decimal digit characters of a natural number (semantic reference for
`Nat.repr`, used to prove its injectivity). -/
def digitsRepr (n : Nat) : List Char :=
  if n < 10 then [Nat.digitChar n]
  else digitsRepr (n / 10) ++ [Nat.digitChar (n % 10)]
termination_by n
decreasing_by
  exact Nat.div_lt_self (by omega) (by omega)

/-! ## Concrete fixtures for counterexamples and witnesses -/

/-- 32765 characters: `Math.ceil(32765 / 4) = 8192 > MAX_ITEM_TOKENS`. -/
def fxBigContent : String := String.mk (List.replicate 32765 'a')

/-- A block whose content exceeds the per-item token ceiling. -/
def fxBigBlock : CodeBlock :=
  { id := "b0", filePath := "a.ts", content := fxBigContent, language := "typescript",
    startLine := 1, endLine := 3, type := .other }

/-- A small block, well under the ceiling. -/
def fxSmallBlock : CodeBlock :=
  { id := "b1", filePath := "a.ts", content := "x", language := "typescript",
    startLine := 4, endLine := 6, type := .other }

/-- Witness blocks for the aligned case. -/
def fxW1 : CodeBlock :=
  { id := "w1", filePath := "a.ts", content := "alpha", language := "typescript",
    startLine := 1, endLine := 3, type := .other }

/-- Second witness block. -/
def fxW2 : CodeBlock :=
  { id := "w2", filePath := "a.ts", content := "beta!!", language := "typescript",
    startLine := 4, endLine := 6, type := .other }

/-- A store point for a given path. -/
def fxPoint (i : Nat) (path : String) : VectorPoint Nat :=
  { id := "p" ++ toString i, vector := some 0,
    payload := { id := "", filePath := path, content := "c", language := "typescript",
                 startLine := i, endLine := i, type := .other } }

/-- A store holding five points for `a.ts` and one for `b.ts`. -/
def fxStore : Store Nat :=
  { colExists := true, dim := 1536,
    points := [fxPoint 1 "a.ts", fxPoint 2 "a.ts", fxPoint 3 "a.ts",
               fxPoint 4 "a.ts", fxPoint 5 "a.ts", fxPoint 6 "b.ts"] }

/-- First re-chunked block for `a.ts`. -/
def fxNb1 : CodeBlock :=
  { id := "n1", filePath := "a.ts", content := "new one", language := "typescript",
    startLine := 1, endLine := 3, type := .other }

/-- Second re-chunked block for `a.ts`. -/
def fxNb2 : CodeBlock :=
  { id := "n2", filePath := "a.ts", content := "new two", language := "typescript",
    startLine := 4, endLine := 6, type := .other }

/-- The good file's block in the scanner counterexample. -/
def fxC3Block : CodeBlock :=
  { id := "g1", filePath := "good.ts", content := "ok", language := "typescript",
    startLine := 1, endLine := 2, type := .other }

/-- A file whose read/chunk fails. -/
def fxC3Bad : FileOutcome :=
  { path := "bad.ts", statRes := .ok 100, parseRes := .error "EACCES: permission denied" }

/-- A file that parses fine. -/
def fxC3Good : FileOutcome :=
  { path := "good.ts", statRes := .ok 100, parseRes := .ok [fxC3Block] }

/-- An existing, empty collection. -/
def fxC4Store : Store Nat := { colExists := true, dim := 1536, points := [] }

/-- One 16-character line. -/
def fxC7Line : String := "0123456789abcdef"

/-- Fifteen such lines. -/
def fxC7Content : String := String.intercalate "\n" (List.replicate 15 fxC7Line)

/-- A definition node spanning rows 10–14. -/
def fxC7Node1 : TSNode := .node "function_declaration" "f1" ⟨10, 0⟩ ⟨14, 0⟩ []

/-- A definition node spanning rows 0–4. -/
def fxC7Node2 : TSNode := .node "function_declaration" "f2" ⟨0, 0⟩ ⟨4, 0⟩ []

/-- The later-starting capture, listed first. -/
def fxC7Cap1 : Capture := { name := "definition.function", node := fxC7Node1, parent := none }

/-- The earlier-starting capture, listed second. -/
def fxC7Cap2 : Capture := { name := "definition.function", node := fxC7Node2, parent := none }

/-- A block built from content `"abc"`. -/
def fxC9A : CodeBlock := createCodeBlock "a.ts" "abc" "typescript" 1 2 none

/-- A block built from content `" abc"` — same trimmed content. -/
def fxC9B : CodeBlock := createCodeBlock "a.ts" " abc" "typescript" 1 2 none

/-! # Theorems

First the characterization of the embedder's batching loop, then the claim
theorems. -/

/-- One batching pass never lengthens the unscanned remainder. -/
theorem buildBatch_snd_length : ∀ (l : List String) (acc : Nat),
    (buildBatch acc l).2.length ≤ l.length := by
  intro l
  induction l with
  | nil => intro acc; simp [buildBatch]
  | cons t rest ih =>
    intro acc
    by_cases h1 : itemTokens t > MAX_ITEM_TOKENS
    · simpa [buildBatch, h1] using Nat.le_succ_of_le (ih acc)
    · by_cases h2 : acc + itemTokens t > MAX_BATCH_TOKENS
      · simp [buildBatch, h1, h2]
      · simpa [buildBatch, h1, h2] using Nat.le_succ_of_le (ih (acc + itemTokens t))

/-- Starting from an empty batch, the pass always consumes the first text
(a text that fits the item ceiling also fits the empty batch, since
`MAX_ITEM_TOKENS < MAX_BATCH_TOKENS`). -/
theorem buildBatch_snd_lt (t : String) (rest : List String) :
    (buildBatch 0 (t :: rest)).2.length < (t :: rest).length := by
  by_cases h1 : itemTokens t > MAX_ITEM_TOKENS
  · simpa [buildBatch, h1] using Nat.lt_succ_of_le (buildBatch_snd_length rest 0)
  · have h2 : ¬(MAX_BATCH_TOKENS < itemTokens t) := by
      simp only [MAX_ITEM_TOKENS] at h1
      simp only [MAX_BATCH_TOKENS]
      omega
    simpa [buildBatch, h1, h2] using Nat.lt_succ_of_le (buildBatch_snd_length rest _)

/-- The batch and the still-fitting part of the remainder together are
exactly the fitting texts, in order. -/
theorem buildBatch_append_filter : ∀ (l : List String) (acc : Nat),
    (buildBatch acc l).1 ++ (buildBatch acc l).2.filter fitsItem = l.filter fitsItem := by
  intro l
  induction l with
  | nil => intro acc; simp [buildBatch]
  | cons t rest ih =>
    intro acc
    by_cases h1 : itemTokens t > MAX_ITEM_TOKENS
    · have hf : fitsItem t = false := by
        simp only [fitsItem, decide_eq_false_iff_not]
        omega
      simp [buildBatch, h1, hf, ih acc]
    · have hf : fitsItem t = true := by
        simp only [fitsItem, decide_eq_true_eq]
        omega
      by_cases h2 : acc + itemTokens t > MAX_BATCH_TOKENS
      · simp [buildBatch, h1, h2]
      · simp [buildBatch, h1, h2, hf, ih (acc + itemTokens t)]

/-- With enough fuel, the embedding loop embeds exactly the fitting texts,
in input order. -/
theorem embedGo_filter (f : String → V) : ∀ (fuel : Nat) (texts : List String),
    texts.length ≤ fuel → embedGo f fuel texts = (texts.filter fitsItem).map f := by
  intro fuel
  induction fuel with
  | zero =>
    intro texts h
    have hnil : texts = [] := List.eq_nil_of_length_eq_zero (Nat.le_zero.mp h)
    subst hnil
    simp [embedGo]
  | succ fuel ih =>
    intro texts h
    cases texts with
    | nil => simp [embedGo]
    | cons t rest =>
      have hlt := buildBatch_snd_lt t rest
      have hle : (buildBatch 0 (t :: rest)).2.length ≤ fuel := by
        simp only [List.length_cons] at h hlt
        omega
      calc embedGo f (fuel + 1) (t :: rest)
          = ((buildBatch 0 (t :: rest)).1.map f)
              ++ embedGo f fuel (buildBatch 0 (t :: rest)).2 := by
            simp [embedGo]
        _ = ((buildBatch 0 (t :: rest)).1.map f)
              ++ ((buildBatch 0 (t :: rest)).2.filter fitsItem).map f := by
            rw [ih _ hle]
        _ = ((buildBatch 0 (t :: rest)).1
              ++ (buildBatch 0 (t :: rest)).2.filter fitsItem).map f := by
            rw [List.map_append]
        _ = ((t :: rest).filter fitsItem).map f := by
            rw [buildBatch_append_filter]

/-- `createEmbeddings` returns the embeddings of exactly the texts within
the per-item ceiling, in input order: oversized texts leave no placeholder,
so the output can be shorter than the input. -/
theorem createEmbeddings_filter (f : String → V) (texts : List String) :
    createEmbeddings f texts = (texts.filter fitsItem).map f :=
  embedGo_filter f texts.length texts (Nat.le_refl _)

/-- `mkPoints` produces one point per block. -/
theorem mkPoints_length (embeddings : List V) : ∀ (bs : List CodeBlock) (i : Nat),
    (mkPoints embeddings bs i).length = bs.length := by
  intro bs
  induction bs with
  | nil => intro i; simp [mkPoints]
  | cons b bs ih => intro i; simp [mkPoints, ih]

/-- When the embeddings from position `i` on are exactly `g` of the blocks,
`mkPoints` pairs block `j` with `g` of block `j`. -/
theorem mkPoints_of_drop (g : CodeBlock → V) : ∀ (bs : List CodeBlock) (embeddings : List V) (i : Nat),
    embeddings.drop i = bs.map g →
    mkPoints embeddings bs i
      = bs.map (fun b => { id := b.id, vector := some (g b), payload := b }) := by
  intro bs
  induction bs with
  | nil => intro embs i h; simp [mkPoints]
  | cons b bs ih =>
    intro embs i h
    have h0 : embs[i]? = some (g b) := by
      have hh : (embs.drop i)[0]? = some (g b) := by rw [h]; simp
      rwa [List.getElem?_drop, Nat.add_zero] at hh
    have h1 : embs.drop (i + 1) = bs.map g := by
      have hh : (embs.drop i).drop 1 = bs.map g := by rw [h]; rfl
      rwa [List.drop_drop] at hh
    simp [mkPoints, h0, ih embs (i + 1) h1]

/-- C2 (amended): when every block's content is within the per-item token
ceiling, each point built by `processBatch` pairs the `i`-th block with the
embedding of that same block's content.  (When a block exceeds the ceiling
the correspondence breaks — see the counterexample.) -/
theorem claimC2_amended (f : String → V) (codeBlocks : List CodeBlock)
    (h : ∀ b ∈ codeBlocks, itemTokens b.content ≤ MAX_ITEM_TOKENS) :
    processBatchPoints f codeBlocks
      = codeBlocks.map (fun b => { id := b.id, vector := some (f b.content), payload := b }) := by
  have hfil : (codeBlocks.map (fun b => b.content)).filter fitsItem
      = codeBlocks.map (fun b => b.content) := by
    rw [List.filter_eq_self]
    intro a ha
    obtain ⟨b, hb, hba⟩ := List.mem_map.mp ha
    subst hba
    simp only [fitsItem, decide_eq_true_eq]
    exact h b hb
  unfold processBatchPoints
  rw [createEmbeddings_filter, hfil]
  apply mkPoints_of_drop
  simp [List.map_map]

/-- C2 witness: two small blocks come back aligned. -/
theorem claimC2_witness :
    processBatchPoints String.length [fxW1, fxW2]
      = [fxW1, fxW2].map
          (fun b => { id := b.id, vector := some (String.length b.content), payload := b }) :=
  claimC2_amended String.length [fxW1, fxW2] (by decide)

/-- C2 counterexample: with `fxBigBlock` over the per-item ceiling, the
embedder drops it without a placeholder, so the point built for the big
block carries the small block's embedding (its content length, under the
embedder `String.length`) and the point for the small block carries no
vector at all. -/
theorem claimC2_counterexample :
    (processBatchPoints String.length [fxBigBlock, fxSmallBlock]).map (fun p => p.vector)
      = [some 1, none]
    ∧ some (String.length fxBigBlock.content) ≠ some 1
    ∧ (some (String.length fxSmallBlock.content) : Option Nat) ≠ none := by
  have hdata : fxBigContent.data = List.replicate 32765 'a' := rfl
  have hlen : fxBigContent.length = 32765 := by
    show fxBigContent.data.length = 32765
    rw [hdata, List.length_replicate]
  have hitemEq : ∀ text : String, itemTokens text = (text.length + 3) / 4 := fun _ => rfl
  have hit : itemTokens fxBigContent = (32765 + 3) / 4 := by
    rw [hitemEq, hlen]
  have hgt : itemTokens fxBigContent > MAX_ITEM_TOKENS := by
    rw [hit]
    decide
  have hfitbig : fitsItem fxBigContent = false := by
    simp only [fitsItem, decide_eq_false_iff_not]
    omega
  have hfitx : fitsItem "x" = true := by decide
  have hx1 : String.length "x" = 1 := rfl
  have hemb : createEmbeddings String.length [fxBigContent, "x"] = [1] := by
    rw [createEmbeddings_filter]
    simp [hfitbig, hfitx, hx1]
  refine ⟨?_, ?_, by simp⟩
  · show (mkPoints (createEmbeddings String.length [fxBigContent, "x"])
        [fxBigBlock, fxSmallBlock] 0).map (fun p => p.vector) = [some 1, none]
    rw [hemb]
    simp [mkPoints]
  · rw [show fxBigBlock.content = fxBigContent from rfl, hlen]
    simp

/-- C6: `indexDirectory` invoked while the state is already `indexing`
throws the reentrancy error immediately, leaving the state and the store
untouched. -/
theorem claimC6 (f : String → V) (st : Store V) (cfgDim : Nat)
    (scanRes : Except String (List CodeBlock)) (embedOkAt : Nat → Bool) :
    indexDirectory f .indexing st cfgDim scanRes embedOkAt
      = (.error "Indexing is already in progress", .indexing, st) := rfl

/-- C6 witness: the reentrancy error at a concrete store. -/
theorem claimC6_witness :
    indexDirectory (fun _ : String => (0 : Nat)) IndexingState.indexing fxC4Store 1536
        (Except.ok []) (fun _ => true)
      = (Except.error "Indexing is already in progress", IndexingState.indexing, fxC4Store) :=
  claimC6 (fun _ => 0) fxC4Store 1536 (Except.ok []) (fun _ => true)

/-- C4 (amended): `clearIndex` on success always ends in `idle` with the
collection recreated empty; but when deleting the backing collection
throws, the error propagates and the state is left exactly as it was — a
call made in `watching` (or `indexing`) that throws stays there. -/
theorem claimC4_amended (state : IndexingState) (st : Store V) (cfgDim : Nat) (deleteOk : Bool) :
    clearIndex state st cfgDim deleteOk
      = if deleteOk
          then (.ok (), .idle, initCollection { st with colExists := false, points := [] } cfgDim)
          else (.error "Error clearing collection", state, st) := by
  cases deleteOk <;> simp [clearIndex, clearCollection]

/-- C4 counterexample: from `watching`, a failing collection delete leaves
the machine in `watching`, contradicting the claim that `clearIndex` never
leaves the state in `indexing`/`watching`. -/
theorem claimC4_counterexample :
    (clearIndex IndexingState.watching fxC4Store 1536 false).2.1 = IndexingState.watching
    ∧ (clearIndex IndexingState.watching fxC4Store 1536 false).1
        = Except.error "Error clearing collection" :=
  ⟨rfl, rfl⟩

/-- C4 witness: a successful clear from `indexed` ends in `idle` with the
collection recreated empty. -/
theorem claimC4_witness :
    clearIndex IndexingState.indexed fxC4Store 1536 true
      = (Except.ok (), IndexingState.idle,
         initCollection { fxC4Store with colExists := false, points := [] } 1536) :=
  claimC4_amended IndexingState.indexed fxC4Store 1536 true

/-- The embedder-failure error is never the "not indexed" error. -/
theorem embedFailMsg_ne (e : String) : embedFailMsg e ≠ notIndexedMsg := by
  obtain ⟨ed⟩ := e
  intro h
  have h2 := congrArg (fun s => s.data.head?) h
  have h3 : (some 'F' : Option Char) = some 'C' := h2
  simp at h3

/-- `search` fails with the "not indexed" error exactly when the collection
does not exist, whatever the in-memory state. -/
theorem search_error_iff (f : String → V) (s : IndexingState) (st : Store V)
    (simSearch : V → List (RawSearchResult S)) (query : String)
    (includeSnippet : Bool) (embedErr : Option String) :
    search f s st simSearch query includeSnippet embedErr = .error notIndexedMsg
      ↔ st.colExists = false := by
  unfold search collectionExists
  cases hex : st.colExists with
  | false => simp
  | true =>
    simp only [Bool.not_true, Bool.false_eq_true, if_false]
    cases embedErr with
    | some e => simp [embedFailMsg_ne e]
    | none =>
      cases hq : createEmbeddings f [query] with
      | nil => simp
      | cons qv rest => simp

/-- C5: `search` may be called in every in-memory state — the state argument
is never consulted, and the call fails with the "not indexed" error exactly
when the backing collection does not exist. -/
theorem claimC5 (f : String → V) (s1 s2 : IndexingState) (st : Store V)
    (simSearch : V → List (RawSearchResult S)) (query : String)
    (includeSnippet : Bool) (embedErr : Option String) :
    search f s1 st simSearch query includeSnippet embedErr
      = search f s2 st simSearch query includeSnippet embedErr
    ∧ (search f s1 st simSearch query includeSnippet embedErr = .error notIndexedMsg
        ↔ st.colExists = false) :=
  ⟨rfl, search_error_iff f s1 st simSearch query includeSnippet embedErr⟩

/-- C5 witness: the state-independence and error condition at a concrete
store whose collection exists. -/
theorem claimC5_witness :
    search (fun _ : String => (0 : Nat)) IndexingState.idle fxC4Store
        (fun _ => ([] : List (RawSearchResult Nat))) "q" true none
      = search (fun _ : String => (0 : Nat)) IndexingState.watching fxC4Store
        (fun _ => ([] : List (RawSearchResult Nat))) "q" true none
    ∧ (search (fun _ : String => (0 : Nat)) IndexingState.idle fxC4Store
        (fun _ => ([] : List (RawSearchResult Nat))) "q" true none
          = Except.error notIndexedMsg
        ↔ fxC4Store.colExists = false) :=
  claimC5 (fun _ => 0) IndexingState.idle IndexingState.watching fxC4Store
    (fun _ => []) "q" true none

/-- C10: after a successful `clearIndex` the collection exists again and is
empty (`clearCollection` deletes and immediately recreates it), so a search
issued right after does not fail with the "not indexed" error. -/
theorem claimC10 (state : IndexingState) (st : Store V) (cfgDim : Nat)
    (f : String → V) (simSearch : V → List (RawSearchResult S)) (query : String)
    (includeSnippet : Bool) (embedErr : Option String) :
    (clearIndex state st cfgDim true).1 = .ok ()
    ∧ (clearIndex state st cfgDim true).2.1 = .idle
    ∧ ((clearIndex state st cfgDim true).2.2).colExists = true
    ∧ ((clearIndex state st cfgDim true).2.2).points = []
    ∧ search f state ((clearIndex state st cfgDim true).2.2) simSearch query
        includeSnippet embedErr ≠ .error notIndexedMsg := by
  have hst : (clearIndex state st cfgDim true).2.2
      = { colExists := true, dim := cfgDim, points := [] } := by
    simp [clearIndex, clearCollection, initCollection]
  refine ⟨rfl, rfl, by rw [hst], by rw [hst], ?_⟩
  intro h
  have := (search_error_iff f state _ simSearch query includeSnippet embedErr).mp h
  rw [hst] at this
  simp at this

/-- C10 witness: clearing a concrete store and searching right after does
not produce the "not indexed" error. -/
theorem claimC10_witness :
    (clearIndex IndexingState.error fxC4Store 1536 true).2.1 = IndexingState.idle
    ∧ search (fun _ : String => (0 : Nat)) IndexingState.error
        ((clearIndex IndexingState.error fxC4Store 1536 true).2.2)
        (fun _ => ([] : List (RawSearchResult Nat))) "q" true none
        ≠ Except.error notIndexedMsg :=
  ⟨(claimC10 IndexingState.error fxC4Store 1536 (fun _ => (0 : Nat))
      (fun _ => ([] : List (RawSearchResult Nat))) "q" true none).2.1,
   (claimC10 IndexingState.error fxC4Store 1536 (fun _ => (0 : Nat))
      (fun _ => ([] : List (RawSearchResult Nat))) "q" true none).2.2.2.2⟩

/-! ## Upsert bookkeeping for the replace-on-shrink claim -/

/-- Upserting a point whose id collides with nothing just appends it. -/
theorem upsertOne_all_ne (acc : List (VectorPoint V)) (p : VectorPoint V)
    (h : ∀ a ∈ acc, a.id ≠ p.id) : upsertOne acc p = acc ++ [p] := by
  unfold upsertOne
  rw [List.filter_eq_self.mpr]
  intro a ha
  simpa using h a ha

/-- Folding fresh, id-distinct points over a store appends them all. -/
theorem foldl_upsertOne_append : ∀ (ps acc : List (VectorPoint V)),
    (∀ a ∈ acc, ∀ p ∈ ps, a.id ≠ p.id) → (ps.map (fun p => p.id)).Nodup →
    List.foldl upsertOne acc ps = acc ++ ps := by
  intro ps
  induction ps with
  | nil => intro acc h hn; simp
  | cons p ps ih =>
    intro acc h hn
    have hn0 : (p.id :: ps.map (fun p => p.id)).Nodup := by
      simpa only [List.map_cons] using hn
    have hn' := List.nodup_cons.mp hn0
    have hacc : upsertOne acc p = acc ++ [p] :=
      upsertOne_all_ne acc p (fun a ha => h a ha p (List.mem_cons_self p ps))
    have hnew : ∀ a ∈ acc ++ [p], ∀ q ∈ ps, a.id ≠ q.id := by
      intro a ha q hq
      rcases List.mem_append.mp ha with h1 | h1
      · exact h a h1 q (List.mem_cons_of_mem _ hq)
      · have ha' : a = p := by simpa using h1
        subst ha'
        intro hEq
        exact hn'.1 (hEq ▸ List.mem_map_of_mem (fun p => p.id) hq)
    calc List.foldl upsertOne acc (p :: ps)
        = List.foldl upsertOne (upsertOne acc p) ps := rfl
      _ = List.foldl upsertOne (acc ++ [p]) ps := by rw [hacc]
      _ = (acc ++ [p]) ++ ps := ih (acc ++ [p]) hnew hn'.2
      _ = acc ++ (p :: ps) := by simp

/-- Filtering by a predicate the new point satisfies commutes with a single
upsert. -/
theorem filter_upsertOne (pred : VectorPoint V → Bool) (acc : List (VectorPoint V))
    (p : VectorPoint V) (hp : pred p = true) :
    (upsertOne acc p).filter pred = upsertOne (acc.filter pred) p := by
  unfold upsertOne
  rw [List.filter_append, List.filter_filter, List.filter_filter]
  simp [hp, Bool.and_comm]

/-- Filtering by file path commutes with upserting points that all carry that
path. -/
theorem filter_foldl_upsertOne (path : String) : ∀ (ps acc : List (VectorPoint V)),
    (∀ p ∈ ps, p.payload.filePath = path) →
    (List.foldl upsertOne acc ps).filter (fun q => q.payload.filePath = path)
      = List.foldl upsertOne (acc.filter (fun q => q.payload.filePath = path)) ps := by
  intro ps
  induction ps with
  | nil => intro acc h; rfl
  | cons p ps ih =>
    intro acc h
    have hp : decide (p.payload.filePath = path) = true := by
      simp [h p (List.mem_cons_self p ps)]
    calc (List.foldl upsertOne (upsertOne acc p) ps).filter
            (fun q => q.payload.filePath = path)
        = List.foldl upsertOne
            ((upsertOne acc p).filter (fun q => q.payload.filePath = path)) ps :=
          ih _ (fun q hq => h q (List.mem_cons_of_mem _ hq))
      _ = List.foldl upsertOne
            (upsertOne (acc.filter (fun q => q.payload.filePath = path)) p) ps := by
          rw [filter_upsertOne _ _ _ hp]

/-- `mkPoints` keeps the blocks' ids, in order. -/
theorem mkPoints_map_id (embeddings : List V) : ∀ (bs : List CodeBlock) (i : Nat),
    (mkPoints embeddings bs i).map (fun p => p.id) = bs.map (fun b => b.id) := by
  intro bs
  induction bs with
  | nil => intro i; rfl
  | cons b bs ih => intro i; simp [mkPoints, ih]

/-- Every point built by `mkPoints` carries one of the blocks as payload. -/
theorem mkPoints_payload_mem (embeddings : List V) : ∀ (bs : List CodeBlock) (i : Nat)
    (p : VectorPoint V), p ∈ mkPoints embeddings bs i → p.payload ∈ bs := by
  intro bs
  induction bs with
  | nil => intro i p hp; simp [mkPoints] at hp
  | cons b bs ih =>
    intro i p hp
    rcases List.mem_cons.mp hp with h1 | h1
    · subst h1; exact List.mem_cons_self _ _
    · exact List.mem_cons_of_mem _ (ih (i + 1) p h1)

/-- `processBatch` builds one point per block. -/
theorem processBatchPoints_length (f : String → V) (blocks : List CodeBlock) :
    (processBatchPoints f blocks).length = blocks.length := by
  unfold processBatchPoints
  exact mkPoints_length _ blocks 0

/-- C1 (amended): an add/change callback whose re-chunk produced `n ≥ 1`
blocks (all for that path, with distinct ids, and with the embedding call
succeeding) leaves exactly the `n` new points for that path — delete then
upsert.  When the re-chunk yields zero blocks the code skips both the delete
and the upsert, so the old points survive (see the counterexample). -/
theorem claimC1_amended (f : String → V) (st : Store V) (path : String) (ct : ChangeType)
    (blocks : List CodeBlock) (hct : ct ≠ ChangeType.unlink) (hne : blocks ≠ [])
    (hpath : ∀ b ∈ blocks, b.filePath = path)
    (hnodup : (blocks.map (fun b => b.id)).Nodup) :
    pointsForPath (handleFileChange f st path ct (.ok blocks) true) path
      = (processBatchPoints f blocks).map
          (fun p => { p with payload := sanitizePayload p.payload })
    ∧ (pointsForPath (handleFileChange f st path ct (.ok blocks) true) path).length
        = blocks.length := by
  have hlenpos : 0 < blocks.length := List.length_pos.mpr hne
  have hchange : handleFileChange f st path ct (.ok blocks) true
      = processBatch f (deletePointsByFilePath st path) blocks := by
    cases ct with
    | unlink => exact absurd rfl hct
    | add => simp [handleFileChange, hlenpos]
    | change => simp [handleFileChange, hlenpos]
  have hqids : ((processBatchPoints f blocks).map
      (fun p => { p with payload := sanitizePayload p.payload })).map (fun p => p.id)
      = blocks.map (fun b => b.id) := by
    rw [List.map_map]
    show (processBatchPoints f blocks).map (fun p => p.id) = blocks.map (fun b => b.id)
    unfold processBatchPoints
    exact mkPoints_map_id _ blocks 0
  have hqpath : ∀ p ∈ (processBatchPoints f blocks).map
      (fun p => { p with payload := sanitizePayload p.payload }),
      p.payload.filePath = path := by
    intro p hp
    obtain ⟨p0, hp0, hpe⟩ := List.mem_map.mp hp
    subst hpe
    show (sanitizePayload p0.payload).filePath = path
    have hmem : p0.payload ∈ blocks := by
      unfold processBatchPoints at hp0
      exact mkPoints_payload_mem _ blocks 0 p0 hp0
    have hsan : (sanitizePayload p0.payload).filePath = p0.payload.filePath := rfl
    rw [hsan]
    exact hpath _ hmem
  have hptsne : (processBatchPoints f blocks).isEmpty = false := by
    cases hp : processBatchPoints f blocks with
    | nil =>
      have hl := processBatchPoints_length f blocks
      rw [hp] at hl
      simp at hl
      omega
    | cons a l => rfl
  have hupsert : processBatch f (deletePointsByFilePath st path) blocks
      = { deletePointsByFilePath st path with
          points := ((processBatchPoints f blocks).map
              (fun p => { p with payload := sanitizePayload p.payload })).foldl
            upsertOne (deletePointsByFilePath st path).points } := by
    unfold processBatch upsertPoints
    rw [hptsne]
    simp
  have hdelempty : ((deletePointsByFilePath st path).points).filter
      (fun q => q.payload.filePath = path) = [] := by
    show (st.points.filter (fun q => !(q.payload.filePath = path))).filter
      (fun q => q.payload.filePath = path) = []
    rw [List.filter_filter]
    simp
  have hmain : pointsForPath (handleFileChange f st path ct (.ok blocks) true) path
      = (processBatchPoints f blocks).map
          (fun p => { p with payload := sanitizePayload p.payload }) := by
    rw [hchange, hupsert]
    show (((processBatchPoints f blocks).map
        (fun p => { p with payload := sanitizePayload p.payload })).foldl
          upsertOne (deletePointsByFilePath st path).points).filter
        (fun q => q.payload.filePath = path) = _
    rw [filter_foldl_upsertOne path _ _ hqpath, hdelempty,
      foldl_upsertOne_append _ [] (by simp) (by rw [hqids]; exact hnodup)]
    rfl
  refine ⟨hmain, ?_⟩
  rw [hmain, List.length_map, processBatchPoints_length]

/-- C1 witness: re-chunking `a.ts` into two blocks leaves exactly those two
points for `a.ts` in a store that had five. -/
theorem claimC1_witness :
    pointsForPath (handleFileChange (fun _ => (0 : Nat)) fxStore "a.ts" .change
        (.ok [fxNb1, fxNb2]) true) "a.ts"
      = (processBatchPoints (fun _ => (0 : Nat)) [fxNb1, fxNb2]).map
          (fun p => { p with payload := sanitizePayload p.payload })
    ∧ (pointsForPath (handleFileChange (fun _ => (0 : Nat)) fxStore "a.ts" .change
        (.ok [fxNb1, fxNb2]) true) "a.ts").length = 2 :=
  claimC1_amended (fun _ => (0 : Nat)) fxStore "a.ts" .change [fxNb1, fxNb2]
    (by decide) (by decide) (by decide) (by decide)

/-- C1 counterexample: when the re-chunk of `a.ts` yields zero blocks, the
callback leaves the store untouched — the five old points for that path
remain, where the claim demands zero. -/
theorem claimC1_counterexample :
    handleFileChange (fun _ => (0 : Nat)) fxStore "a.ts" .change
        (.ok ([] : List CodeBlock)) true = fxStore
    ∧ (pointsForPath fxStore "a.ts").length = 5 :=
  ⟨rfl, by decide⟩

/-! ## Scanner error accounting -/

/-- The scanner fold: `errors` never grows (the per-file catch is dead code
because `processFile` swallows its own failures), `processedFiles` counts
every file, and the blocks are the concatenation of the per-file results. -/
theorem scan_foldl_spec : ∀ (files : List FileOutcome) (p : IndexingProgress)
    (bs : List CodeBlock),
    (files.foldl scanFileTask (p, bs)).1.errors = p.errors
    ∧ (files.foldl scanFileTask (p, bs)).1.processedFiles = p.processedFiles + files.length
    ∧ (files.foldl scanFileTask (p, bs)).2 = bs ++ (files.map processFile).flatten := by
  intro files
  induction files with
  | nil => intro p bs; simp
  | cons fo files ih =>
    intro p bs
    have hstep : scanFileTask (p, bs) fo
        = ({ p with
              currentFile := fo.path
              stage := .parsing
              processedFiles := p.processedFiles + 1 }, bs ++ processFile fo) := rfl
    rw [List.foldl_cons, hstep]
    obtain ⟨h1, h2, h3⟩ := ih
      { p with
        currentFile := fo.path
        stage := .parsing
        processedFiles := p.processedFiles + 1 } (bs ++ processFile fo)
    refine ⟨h1, ?_, ?_⟩
    · rw [h2]
      simp
      omega
    · rw [h3]
      simp

/-- C3 (amended): per-file read/chunk failures are caught inside
`processFile`, which returns zero blocks for that file; the scan completes,
processes every file, and leaves the other files' blocks intact — but no
error string is ever appended to `progress.errors` (it stays empty), because
the scanner's own catch never fires. -/
theorem claimC3_amended (files : List FileOutcome) :
    (scanDirectory files).1.errors = []
    ∧ (scanDirectory files).2 = (files.map processFile).flatten
    ∧ (scanDirectory files).1.processedFiles = files.length
    ∧ (scanDirectory files).1.stage = Stage.completed
    ∧ ∀ (fo : FileOutcome) (e : String), fo.parseRes = .error e → processFile fo = [] := by
  obtain ⟨h1, h2, h3⟩ := scan_foldl_spec files
    { totalFiles := files.length, processedFiles := 0, currentFile := "",
      stage := .scanning, errors := [] } []
  refine ⟨h1, by simpa using h3, by simpa using h2, rfl, ?_⟩
  intro fo e he
  cases hs : fo.statRes with
  | error e2 => simp [processFile, hs]
  | ok size => simp [processFile, hs, he]

/-- C3 witness: a scan over a failing and a good file completes with an empty
error list, and the failing file contributed zero blocks. -/
theorem claimC3_witness :
    (scanDirectory [fxC3Bad, fxC3Good]).1.errors = []
    ∧ processFile fxC3Bad = [] :=
  ⟨(claimC3_amended [fxC3Bad, fxC3Good]).1,
    (claimC3_amended [fxC3Bad, fxC3Good]).2.2.2.2 fxC3Bad "EACCES: permission denied" rfl⟩

/-- C3 counterexample: after scanning a file whose chunking failed next to a
good one, `progress.errors` is empty — no error string for `bad.ts` was
appended, contrary to the claim — while the good file's block is present. -/
theorem claimC3_counterexample :
    (scanDirectory [fxC3Bad, fxC3Good]).1.errors = []
    ∧ (scanDirectory [fxC3Bad, fxC3Good]).2 = [fxC3Block]
    ∧ (scanDirectory [fxC3Bad, fxC3Good]).1.stage = Stage.completed :=
  ⟨rfl, rfl, rfl⟩

/-! ## Debounce coalescing -/

/-- While events for the path keep arriving within the window, the pending
timer is replaced each time and nothing fires; afterwards exactly the last
event's timer remains. -/
theorem watch_invariant (w : Nat) (p : String) : ∀ (es : List TimedEvent) (t : Nat)
    (c : ChangeType) (fired : List Callback),
    denseFromB w t es = true → es.all (fun e => e.path = p) = true →
    es.foldl (debounceStep w) ([{ path := p, fireTime := t + w, changeType := c }], fired)
      = ([{ path := p, fireTime := lastTime es t + w, changeType := lastType es c }], fired) := by
  intro es
  induction es with
  | nil => intro t c fired _ _; rfl
  | cons e es ih =>
    intro t c fired hd ha
    obtain ⟨et, ep, ec⟩ := e
    simp only [denseFromB, Bool.and_eq_true, decide_eq_true_eq] at hd
    simp only [List.all_cons, Bool.and_eq_true, decide_eq_true_eq] at ha
    obtain ⟨⟨h1, h2⟩, h3⟩ := hd
    obtain ⟨hp, hall⟩ := ha
    have hp' : ep = p := hp
    subst hp'
    have hstep : debounceStep w ([{ path := ep, fireTime := t + w, changeType := c }], fired)
        ⟨et, ep, ec⟩
        = ([{ path := ep, fireTime := et + w, changeType := ec }], fired) := by
      have hdue : decide (t + w ≤ et) = false := by
        simp only [decide_eq_false_iff_not]
        omega
      simp [debounceStep, hdue]
    rw [List.foldl_cons, hstep]
    exact ih et ec fired h3 hall

/-- C8: N ≥ 1 events for one path, each arriving within less than the
debounce window of its predecessor, produce exactly one callback for that
path; it fires one window after the last event and carries the last event's
change type. -/
theorem claimC8 (w : Nat) (p : String) (e0 : TimedEvent) (es : List TimedEvent)
    (hp0 : e0.path = p) (hall : es.all (fun e => e.path = p) = true)
    (hdense : denseFromB w e0.time es = true) :
    runWatcher w (e0 :: es)
      = [{ time := lastTime es e0.time + w, path := p,
           changeType := lastType es e0.changeType }] := by
  obtain ⟨t0, p0, c0⟩ := e0
  have hp0' : p0 = p := hp0
  subst hp0'
  unfold runWatcher
  rw [List.foldl_cons]
  have hfirst : debounceStep w ([], []) ⟨t0, p0, c0⟩
      = ([{ path := p0, fireTime := t0 + w, changeType := c0 }], []) := by
    simp [debounceStep]
  rw [hfirst, watch_invariant w p0 es t0 c0 [] hdense hall]
  rfl

/-- C8 witness: the spec's example — events at 0, 100, 300 ms with a 1000 ms
window yield one callback at 1300 ms with the last type. -/
theorem claimC8_witness :
    runWatcher 1000
      [{ time := 0, path := "a.ts", changeType := .change },
       { time := 100, path := "a.ts", changeType := .change },
       { time := 300, path := "a.ts", changeType := .change }]
      = [{ time := 1300, path := "a.ts", changeType := ChangeType.change }] :=
  claimC8 1000 "a.ts" { time := 0, path := "a.ts", changeType := .change }
    [{ time := 100, path := "a.ts", changeType := .change },
     { time := 300, path := "a.ts", changeType := .change }]
    rfl (by decide) (by decide)

/-! ## Tree-sitter chunking: order, dedup and the min-lines filter -/

/-- The emitted block's 1-based start line. -/
theorem tsEmitBlock_startLine (filePath language : String) (cap : Capture)
    (blockContent : String) (startLine endLine : Nat) :
    (tsEmitBlock filePath language cap blockContent startLine endLine).startLine
      = startLine + 1 := rfl

/-- The emitted block's 1-based end line. -/
theorem tsEmitBlock_endLine (filePath language : String) (cap : Capture)
    (blockContent : String) (startLine endLine : Nat) :
    (tsEmitBlock filePath language cap blockContent startLine endLine).endLine
      = endLine + 1 := rfl

/-- Invariant of the capture loop: every emitted block spans at least three
lines; emitted range keys avoid the `processed` set and are pairwise
distinct; and the emitted spans form a subsequence of the candidate spans in
capture order (no sorting). -/
theorem tsCaptureLoop_spec (filePath language : String) (lines : List String) :
    ∀ (caps : List Capture) (processed : List String),
    (∀ b ∈ tsCaptureLoop filePath language lines caps processed,
        b.startLine + 2 ≤ b.endLine)
    ∧ (∀ b ∈ tsCaptureLoop filePath language lines caps processed,
        rangeKeyOf b ∉ processed)
    ∧ List.Pairwise (fun a b => rangeKeyOf a ≠ rangeKeyOf b)
        (tsCaptureLoop filePath language lines caps processed)
    ∧ ((tsCaptureLoop filePath language lines caps processed).map
        (fun b => (b.startLine, b.endLine))).Sublist (candidateSpans caps) := by
  intro caps
  induction caps with
  | nil =>
    intro processed
    refine ⟨?_, ?_, ?_, ?_⟩ <;> simp [tsCaptureLoop, candidateSpans]
  | cons cap rest ih =>
    intro processed
    cases hX : (containsSub cap.name "definition" || containsSub cap.name "name") with
    | false =>
      have hloop : tsCaptureLoop filePath language lines (cap :: rest) processed
          = tsCaptureLoop filePath language lines rest processed := by
        simp [tsCaptureLoop, hX]
      have hspan : candidateSpans (cap :: rest) = candidateSpans rest := by
        simp [candidateSpans, List.filterMap_cons, candidateSpan, hX]
      obtain ⟨i1, i2, i3, i4⟩ := ih processed
      rw [hloop, hspan]
      exact ⟨i1, i2, i3, i4⟩
    | true =>
      cases hdn : (if containsSub cap.name "name" then cap.parent else some cap.node) with
      | none =>
        have hloop : tsCaptureLoop filePath language lines (cap :: rest) processed
            = tsCaptureLoop filePath language lines rest processed := by
          simp [tsCaptureLoop, hX, hdn]
        have hspan : candidateSpans (cap :: rest) = candidateSpans rest := by
          simp [candidateSpans, List.filterMap_cons, candidateSpan, hX, hdn]
        obtain ⟨i1, i2, i3, i4⟩ := ih processed
        rw [hloop, hspan]
        exact ⟨i1, i2, i3, i4⟩
      | some dn =>
        have hspan : candidateSpans (cap :: rest)
            = (dn.startPos.row + 1, dn.endPos.row + 1) :: candidateSpans rest := by
          simp [candidateSpans, List.filterMap_cons, candidateSpan, hX, hdn]
        by_cases hlc3 : dn.endPos.row - dn.startPos.row + 1 < 3
        · have hloop : tsCaptureLoop filePath language lines (cap :: rest) processed
              = tsCaptureLoop filePath language lines rest processed := by
            simp [tsCaptureLoop, hX, hdn, hlc3]
          obtain ⟨i1, i2, i3, i4⟩ := ih processed
          rw [hloop, hspan]
          exact ⟨i1, i2, i3, List.Sublist.cons _ i4⟩
        · by_cases hkeymem : (toString dn.startPos.row ++ "-" ++ toString dn.endPos.row)
              ∈ processed
          case pos =>
            have hloop : tsCaptureLoop filePath language lines (cap :: rest) processed
                = tsCaptureLoop filePath language lines rest processed := by
              simp [tsCaptureLoop, hX, hdn, hlc3, hkeymem]
            obtain ⟨i1, i2, i3, i4⟩ := ih processed
            rw [hloop, hspan]
            exact ⟨i1, i2, i3, List.Sublist.cons _ i4⟩
          case neg =>
            by_cases hmin : (jsTrim (String.intercalate "\n"
                ((lines.drop dn.startPos.row).take
                  (dn.endPos.row + 1 - dn.startPos.row)))).length < MIN_BLOCK_CHARS
            · have hloop : tsCaptureLoop filePath language lines (cap :: rest) processed
                  = tsCaptureLoop filePath language lines rest processed := by
                simp [tsCaptureLoop, hX, hdn, hlc3, hkeymem, hmin]
              obtain ⟨i1, i2, i3, i4⟩ := ih processed
              rw [hloop, hspan]
              exact ⟨i1, i2, i3, List.Sublist.cons _ i4⟩
            · have hloop : tsCaptureLoop filePath language lines (cap :: rest) processed
                  = tsEmitBlock filePath language cap
                      (String.intercalate "\n" ((lines.drop dn.startPos.row).take
                        (dn.endPos.row + 1 - dn.startPos.row)))
                      dn.startPos.row dn.endPos.row
                    :: tsCaptureLoop filePath language lines rest
                      ((toString dn.startPos.row ++ "-" ++ toString dn.endPos.row)
                        :: processed) := by
                simp [tsCaptureLoop, hX, hdn, hlc3, hkeymem, hmin]
              have hBkey : rangeKeyOf (tsEmitBlock filePath language cap
                  (String.intercalate "\n" ((lines.drop dn.startPos.row).take
                    (dn.endPos.row + 1 - dn.startPos.row)))
                  dn.startPos.row dn.endPos.row)
                  = toString dn.startPos.row ++ "-" ++ toString dn.endPos.row := by
                unfold rangeKeyOf
                rw [tsEmitBlock_startLine, tsEmitBlock_endLine]
                simp
              have hnotmem : (toString dn.startPos.row ++ "-" ++ toString dn.endPos.row)
                  ∉ processed := hkeymem
              obtain ⟨i1, i2, i3, i4⟩ := ih
                ((toString dn.startPos.row ++ "-" ++ toString dn.endPos.row) :: processed)
              rw [hloop, hspan]
              refine ⟨?_, ?_, ?_, ?_⟩
              · intro b hb
                rcases List.mem_cons.mp hb with hb1 | hb2
                · subst hb1
                  rw [tsEmitBlock_startLine, tsEmitBlock_endLine]
                  omega
                · exact i1 b hb2
              · intro b hb
                rcases List.mem_cons.mp hb with hb1 | hb2
                · subst hb1
                  rw [hBkey]
                  exact hnotmem
                · intro hm
                  exact (i2 b hb2) (List.mem_cons_of_mem _ hm)
              · rw [List.pairwise_cons]
                refine ⟨?_, i3⟩
                intro b hb hEq
                have hb2 := i2 b hb
                rw [← hEq, hBkey] at hb2
                exact hb2 (List.mem_cons_self _ _)
              · rw [List.map_cons, tsEmitBlock_startLine, tsEmitBlock_endLine]
                exact List.Sublist.cons₂ _ i4

/-- C7 (amended): in `parseWithTreeSitter`, candidates are processed in the
order the capture list provides — no sorting by start position happens —
with every kept block spanning at least 3 lines (the hard-coded minimum),
no two kept blocks sharing a (startLine, endLine) pair (the first passing
candidate in capture order wins), and the kept spans forming a subsequence
of the candidate spans in capture order. -/
theorem claimC7_amended (filePath content : String) (captures : List Capture) :
    (∀ b ∈ parseWithTreeSitter filePath content captures, b.startLine + 2 ≤ b.endLine)
    ∧ List.Pairwise (fun a b => ¬(a.startLine = b.startLine ∧ a.endLine = b.endLine))
        (parseWithTreeSitter filePath content captures)
    ∧ ((parseWithTreeSitter filePath content captures).map
        (fun b => (b.startLine, b.endLine))).Sublist (candidateSpans captures) := by
  obtain ⟨i1, i2, i3, i4⟩ := tsCaptureLoop_spec filePath
    ((extToLanguage (jsToLower (extname filePath))).getD "text")
    (jsSplitLines content) captures []
  refine ⟨i1, ?_, i4⟩
  refine i3.imp ?_
  intro a b hab hEq
  exact hab (by simp [rangeKeyOf, hEq.1, hEq.2])

/-- C7 witness: the kept spans of the fixture captures form a subsequence of
the candidate spans in capture order. -/
theorem claimC7_witness :
    ((parseWithTreeSitter "a.ts" fxC7Content [fxC7Cap1, fxC7Cap2]).map
        (fun b => (b.startLine, b.endLine))).Sublist
      (candidateSpans [fxC7Cap1, fxC7Cap2]) :=
  (claimC7_amended "a.ts" fxC7Content [fxC7Cap1, fxC7Cap2]).2.2

/-- C7 counterexample: two definition captures arriving in descending start
order are emitted in exactly that (unsorted) order — block start lines
`[11, 1]` — refuting the claim that candidates are processed by ascending
start position. -/
theorem claimC7_counterexample :
    (parseWithTreeSitter "a.ts" fxC7Content [fxC7Cap1, fxC7Cap2]).map
        (fun b => b.startLine) = [11, 1]
    ∧ ¬ List.Pairwise (fun a b => a ≤ b)
        ((parseWithTreeSitter "a.ts" fxC7Content [fxC7Cap1, fxC7Cap2]).map
          (fun b => b.startLine)) := by
  have h : (parseWithTreeSitter "a.ts" fxC7Content [fxC7Cap1, fxC7Cap2]).map
      (fun b => b.startLine) = [11, 1] := by decide
  refine ⟨h, ?_⟩
  rw [h]
  decide

/-! ## Block ids: injectivity of the hashed serialization, and the trim
mismatch between the id and the stored content -/

/-- `Nat.digitChar` is injective on decimal digits. -/
theorem digitChar_inj_lt : ∀ a < 10, ∀ b < 10, Nat.digitChar a = Nat.digitChar b → a = b := by
  decide

/-- `digitsRepr` of a digit. -/
theorem digitsRepr_lt {n : Nat} (h : n < 10) : digitsRepr n = [Nat.digitChar n] := by
  rw [digitsRepr]
  exact if_pos h

/-- `digitsRepr` of a multi-digit number. -/
theorem digitsRepr_ge {n : Nat} (h : ¬ n < 10) :
    digitsRepr n = digitsRepr (n / 10) ++ [Nat.digitChar (n % 10)] := by
  rw [digitsRepr]
  exact if_neg h

/-- `digitsRepr` is never empty. -/
theorem digitsRepr_ne_nil (n : Nat) : digitsRepr n ≠ [] := by
  by_cases h : n < 10
  · rw [digitsRepr_lt h]
    simp
  · rw [digitsRepr_ge h]
    simp

/-- Decimal digit strings determine the number. -/
theorem digitsRepr_inj (m : Nat) : ∀ n, digitsRepr m = digitsRepr n → m = n := by
  induction m using Nat.strong_induction_on with
  | _ m ih =>
    intro n h
    by_cases hm : m < 10 <;> by_cases hn : n < 10
    · rw [digitsRepr_lt hm, digitsRepr_lt hn] at h
      exact digitChar_inj_lt m hm n hn (List.cons.injEq .. ▸ h).1
    · rw [digitsRepr_lt hm, digitsRepr_ge hn] at h
      exfalso
      cases hd : digitsRepr (n / 10) with
      | nil => exact digitsRepr_ne_nil (n / 10) hd
      | cons x xs =>
        rw [hd] at h
        simp at h
    · rw [digitsRepr_ge hm, digitsRepr_lt hn] at h
      exfalso
      cases hd : digitsRepr (m / 10) with
      | nil => exact digitsRepr_ne_nil (m / 10) hd
      | cons x xs =>
        rw [hd] at h
        simp at h
    · rw [digitsRepr_ge hm, digitsRepr_ge hn] at h
      obtain ⟨h1, h2⟩ := List.append_inj' h (by simp)
      have hdiv : m / 10 = n / 10 :=
        ih (m / 10) (Nat.div_lt_self (by omega) (by omega)) (n / 10) h1
      have hmod : m % 10 = n % 10 := by
        have hc : Nat.digitChar (m % 10) = Nat.digitChar (n % 10) := by
          simpa using h2
        exact digitChar_inj_lt (m % 10) (Nat.mod_lt m (by omega)) (n % 10)
          (Nat.mod_lt n (by omega)) hc
      omega

/-- One-step unfolding of `Nat.toDigitsCore`. -/
theorem toDigitsCore_succ (b fuel n : Nat) (ds : List Char) :
    Nat.toDigitsCore b (fuel + 1) n ds
      = if n / b = 0 then Nat.digitChar (n % b) :: ds
        else Nat.toDigitsCore b fuel (n / b) (Nat.digitChar (n % b) :: ds) := rfl

/-- With enough fuel, `Nat.toDigitsCore` produces the decimal digits in
front of the accumulator. -/
theorem toDigitsCore_eq : ∀ (fuel n : Nat) (acc : List Char), n < 10 ^ (fuel + 1) →
    Nat.toDigitsCore 10 (fuel + 1) n acc = digitsRepr n ++ acc := by
  intro fuel
  induction fuel with
  | zero =>
    intro n acc h
    have h10 : n < 10 := by simpa using h
    have hdiv : n / 10 = 0 := Nat.div_eq_of_lt h10
    rw [toDigitsCore_succ, if_pos hdiv, digitsRepr_lt h10, Nat.mod_eq_of_lt h10]
    rfl
  | succ fuel ih =>
    intro n acc h
    by_cases h10 : n < 10
    · have hdiv : n / 10 = 0 := Nat.div_eq_of_lt h10
      rw [toDigitsCore_succ, if_pos hdiv, digitsRepr_lt h10, Nat.mod_eq_of_lt h10]
      rfl
    · have hdiv : ¬(n / 10 = 0) := by
        rw [Nat.div_eq_zero_iff (by omega)]
        exact h10
      rw [digitsRepr_ge h10, toDigitsCore_succ, if_neg hdiv]
      rw [ih (n / 10) (Nat.digitChar (n % 10) :: acc) ?_]
      · simp
      · apply Nat.div_lt_of_lt_mul
        have hpow : 10 ^ (fuel + 1 + 1) = 10 * 10 ^ (fuel + 1) := by ring
        omega

/-- `Nat.repr` is the decimal digit string. -/
theorem repr_eq_digitsRepr (n : Nat) : Nat.repr n = (digitsRepr n).asString := by
  show (Nat.toDigits 10 n).asString = _
  unfold Nat.toDigits
  rw [toDigitsCore_eq n n [] ?_]
  · simp
  · calc n < 10 ^ n := Nat.lt_pow_self (by norm_num) n
      _ ≤ 10 ^ (n + 1) := Nat.pow_le_pow_right (by norm_num) (Nat.le_succ n)

/-- Distinct naturals have distinct decimal representations. -/
theorem nat_repr_inj {m n : Nat} (h : Nat.repr m = Nat.repr n) : m = n := by
  rw [repr_eq_digitsRepr, repr_eq_digitsRepr] at h
  have h2 : digitsRepr m = digitsRepr n := congrArg String.data h
  exact digitsRepr_inj m n h2

/-- The serialized hash input, as a character list in fully right-associated
form. -/
theorem blockIdInput_data (fp : String) (s e : Nat) (c : String) :
    (blockIdInput fp s e c).data
      = fp.data ++ ([':'] ++ ((Nat.repr s).data ++ ([':']
          ++ ((Nat.repr e).data ++ ([':'] ++ c.data))))) := by
  have ht : ∀ n : Nat, toString n = Nat.repr n := fun _ => rfl
  unfold blockIdInput
  simp [List.append_assoc, ht]

/-- Changing only the content changes the hashed serialization. -/
theorem blockIdInput_inj_content (fp : String) (s e : Nat) (c c' : String)
    (h : blockIdInput fp s e c = blockIdInput fp s e c') : c = c' := by
  have h2 := congrArg String.data h
  rw [blockIdInput_data, blockIdInput_data] at h2
  apply String.ext
  have h3 := List.append_cancel_left h2
  have h4 := List.append_cancel_left h3
  have h5 := List.append_cancel_left h4
  have h6 := List.append_cancel_left h5
  have h7 := List.append_cancel_left h6
  exact List.append_cancel_left h7

/-- Changing only the file path changes the hashed serialization. -/
theorem blockIdInput_inj_filePath (fp fp' : String) (s e : Nat) (c : String)
    (h : blockIdInput fp s e c = blockIdInput fp' s e c) : fp = fp' := by
  have h2 := congrArg String.data h
  rw [blockIdInput_data, blockIdInput_data] at h2
  exact String.ext (List.append_cancel_right h2)

/-- Changing only the start line changes the hashed serialization. -/
theorem blockIdInput_inj_startLine (fp : String) (s s' e : Nat) (c : String)
    (h : blockIdInput fp s e c = blockIdInput fp s' e c) : s = s' := by
  have h2 := congrArg String.data h
  rw [blockIdInput_data, blockIdInput_data] at h2
  have h3 := List.append_cancel_left h2
  have h4 := List.append_cancel_left h3
  have h5 := List.append_cancel_right h4
  exact nat_repr_inj (String.ext h5)

/-- Changing only the end line changes the hashed serialization. -/
theorem blockIdInput_inj_endLine (fp : String) (s e e' : Nat) (c : String)
    (h : blockIdInput fp s e c = blockIdInput fp s e' c) : e = e' := by
  have h2 := congrArg String.data h
  rw [blockIdInput_data, blockIdInput_data] at h2
  have h3 := List.append_cancel_left h2
  have h4 := List.append_cancel_left h3
  have h5 := List.append_cancel_left h4
  have h6 := List.append_cancel_left h5
  have h7 := List.append_cancel_right h6
  exact nat_repr_inj (String.ext h7)

/-- C9 (amended): the id is a deterministic function of the four fields as
hashed — `(filePath, startLine, endLine, pre-trim content)` — and changing
any single one of those four fields changes the hashed serialization (hence
the id, barring a SHA-256 collision).  But the block STORES the trimmed
content while hashing the untrimmed one, so two blocks with equal stored
fields can carry different ids (see the counterexample). -/
theorem claimC9_amended :
    (∀ (fp : String) (s e : Nat) (c : String),
        generateBlockId fp s e c = generateBlockId fp s e c)
    ∧ (∀ (fp : String) (s e : Nat) (c c' : String),
        blockIdInput fp s e c = blockIdInput fp s e c' → c = c')
    ∧ (∀ (fp fp' : String) (s e : Nat) (c : String),
        blockIdInput fp s e c = blockIdInput fp' s e c → fp = fp')
    ∧ (∀ (fp : String) (s s' e : Nat) (c : String),
        blockIdInput fp s e c = blockIdInput fp s' e c → s = s')
    ∧ (∀ (fp : String) (s e e' : Nat) (c : String),
        blockIdInput fp s e c = blockIdInput fp s e' c → e = e') :=
  ⟨fun _ _ _ _ => rfl, blockIdInput_inj_content, blockIdInput_inj_filePath,
    blockIdInput_inj_startLine, blockIdInput_inj_endLine⟩

/-- C9 witness: the single-coordinate injectivity applied at concrete
inputs. -/
theorem claimC9_witness :
    ("abc" : String) = "abc" ∧ (3 : Nat) = 3 :=
  ⟨claimC9_amended.2.1 "a.ts" 1 2 "abc" "abc" rfl,
   claimC9_amended.2.2.2.1 "a.ts" 3 3 7 "abc" rfl⟩

set_option maxRecDepth 1000000 in
/-- C9 counterexample: two blocks built from contents `"abc"` and `" abc"`
agree on filePath, startLine, endLine and (trimmed, stored) content, yet
carry different ids, because `generateBlockId` hashes the pre-trim
content. -/
theorem claimC9_counterexample :
    fxC9A.filePath = fxC9B.filePath
    ∧ fxC9A.startLine = fxC9B.startLine
    ∧ fxC9A.endLine = fxC9B.endLine
    ∧ fxC9A.content = fxC9B.content
    ∧ fxC9A.id ≠ fxC9B.id := by
  refine ⟨rfl, rfl, rfl, by decide, by decide⟩

end CodebaseIndexer
